import Mathlib

/-!
Verification of the readiness-polling and credential-provisioning workflow of
the win-client deployment scripts (ll-win-client-aws.py / ll-win-client.py).

The Python source is shallowly embedded: strings are `String` or `List Char`,
the random choices made by `secrets.choice` become explicit parameters, cloud
API responses become explicit inputs, and side effects (remote dispatches,
file writes) become explicit event traces.
-/

/-! ## Credential generator (`generate_secure_password`) -/

/-- ASCII uppercase test, the behaviour of Python `str.isupper` on the
password alphabet (which is pure ASCII). -/
def isAsciiUpper (c : Char) : Bool := 'A' ≤ c && c ≤ 'Z'

/-- ASCII lowercase test, the behaviour of Python `str.islower` on the
password alphabet. -/
def isAsciiLower (c : Char) : Bool := 'a' ≤ c && c ≤ 'z'

/-- ASCII digit test, the behaviour of Python `str.isdigit` on the
password alphabet. -/
def isAsciiDigit (c : Char) : Bool := '0' ≤ c && c ≤ '9'

/-- The alphabet used by `generate_secure_password`:
`string.ascii_letters + string.digits + "!@#$%^&*"`. -/
def passwordAlphabet : List Char :=
  "abcdefghijklmnopqrstuvwxyzABCDEFGHIJKLMNOPQRSTUVWXYZ0123456789!@#$%^&*".toList

/-- Embedding of `generate_secure_password` (ll-win-client-aws.py lines
816-829, identical in ll-win-client.py lines 967-981).  `sample` is the
uniformly sampled string `''.join(secrets.choice(alphabet) for _ in
range(length))`; `u`, `l`, `d` are the outcomes of the three patching
`secrets.choice` calls.  Python slices `s[:-k]` are `take (length - k)`,
`s[-1]` is the last character and `s[-2:]` the last two (the call sites only
use strings of length 16, so the nonempty-slice behaviour is the one that
matters). -/
def generate_secure_password (sample : List Char) (u l d : Char) : List Char :=
  let p1 := if sample.any isAsciiUpper then sample
            else sample.take (sample.length - 1) ++ [u]
  let p2 := if p1.any isAsciiLower then p1
            else p1.take (p1.length - 2) ++ l :: p1.drop (p1.length - 1)
  let p3 := if p2.any isAsciiDigit then p2
            else p2.take (p2.length - 3) ++ d :: p2.drop (p2.length - 2)
  p3

/-- Claim C1: refuted on the code.  The sampled string
`"11111111111111A1"` is a possible outcome of the uniform sampling (all its
characters are in the alphabet, length 16) whose only uppercase letter sits
at position -2 and which contains no lowercase letter.  The lowercase patch
`password[:-2] + secrets.choice(string.ascii_lowercase) + password[-1]`
overwrites that only uppercase letter, and no later check restores it: the
returned password has length 16 but contains no uppercase letter, violating
the claimed post-condition. -/
theorem generate_secure_password_can_lose_uppercase :
    ("11111111111111A1".toList.length = 16
      ∧ "11111111111111A1".toList.all passwordAlphabet.contains = true
      ∧ isAsciiLower 'a' = true
      ∧ generate_secure_password "11111111111111A1".toList 'X' 'a' '5'
          = "11111111111111a1".toList
      ∧ (generate_secure_password "11111111111111A1".toList 'X' 'a' '5').length = 16
      ∧ (generate_secure_password "11111111111111A1".toList 'X' 'a' '5').any isAsciiUpper
          = false) := by
  decide

/-! ## SSM agent status and the readiness wait
(`check_ssm_agent_status`, `wait_for_ssm_ready`) -/

/-- The outcome of one `describe_instance_information` call for one instance:
either the call raises (network error, transient API error), or it returns an
`InstanceInformationList` whose entries carry a `PingStatus` string. -/
inductive QueryOutcome where
  | ok (infoList : List String)
  | exn (msg : String)
deriving DecidableEq, Repr

/-- Embedding of `check_ssm_agent_status` (ll-win-client-aws.py lines
832-865): a nonempty information list yields the first entry's ping status,
an empty list yields `"NotRegistered"`, and any raised exception is swallowed
and yields `"Unknown"`. -/
def check_ssm_agent_status : QueryOutcome → String
  | .ok [] => "NotRegistered"
  | .ok (s :: _) => s
  | .exn _ => "Unknown"

/-- One polling round: for each instance identifier, the outcome of its
status query in that round. -/
abbrev SsmRound : Type := String → QueryOutcome

/-- The `ready_instances` dict: an insertion-ordered association list, as a
Python dict. -/
abbrev SsmDict : Type := List (String × Bool)

/-- Python dict membership test (`k in d`). -/
def dictContains (d : SsmDict) (k : String) : Bool :=
  d.any (fun p => p.1 == k)

/-- Python dict assignment (`d[k] = v`): updates in place if the key exists,
otherwise appends (insertion order preserved). -/
def dictSet (d : SsmDict) (k : String) (v : Bool) : SsmDict :=
  if dictContains d k then d.map (fun p => if p.1 == k then (k, v) else p)
  else d ++ [(k, v)]

/-- Python dict read (`d.get(k)`). -/
def dictLookup (d : SsmDict) (k : String) : Option Bool :=
  (d.find? (fun p => p.1 == k)).map Prod.snd

/-- One round of the wait loop (the inner `for inst_id in instance_ids` of
`wait_for_ssm_ready`, lines 894-910): already-ready instances are skipped;
every other instance is queried; a query whose derived status is `"Online"`
marks the instance ready; any other status clears the `all_ready` flag for
the round.  Returns the updated dict, the list of (instance, status)
observations actually made this round, and the `all_ready` flag. -/
def ssmRoundStep (q : SsmRound) : List String → SsmDict →
    SsmDict × List (String × String) × Bool
  | [], d => (d, [], true)
  | id :: rest, d =>
    if dictContains d id then ssmRoundStep q rest d
    else
      let st := check_ssm_agent_status (q id)
      if st = "Online" then
        let r := ssmRoundStep q rest (dictSet d id true)
        (r.1, (id, st) :: r.2.1, r.2.2)
      else
        let r := ssmRoundStep q rest d
        (r.1, (id, st) :: r.2.1, false)

/-- The outer `for check_num in range(max_checks)` loop of
`wait_for_ssm_ready`: one entry of `rounds` per check; the loop breaks early
once a round ends with `all_ready` set.  Returns the dict and the
concatenated observation log of the rounds actually executed. -/
def ssmWaitLoop : List SsmRound → List String → SsmDict →
    SsmDict × List (String × String)
  | [], _, d => (d, [])
  | q :: rest, ids, d =>
    let r := ssmRoundStep q ids d
    if r.2.2 then (r.1, r.2.1)
    else
      let w := ssmWaitLoop rest ids r.1
      (w.1, r.2.1 ++ w.2)

/-- The finalisation of `wait_for_ssm_ready` (lines 935-938): every input
identifier missing from the dict is added with value `False`. -/
def ssmFillMissing : List String → SsmDict → SsmDict
  | [], d => d
  | id :: rest, d =>
    ssmFillMissing rest (if dictContains d id then d else dictSet d id false)

/-- Embedding of `wait_for_ssm_ready` (ll-win-client-aws.py lines 867-940):
the returned dict, with the rounds' query outcomes supplied as input. -/
def wait_for_ssm_ready (rounds : List SsmRound) (ids : List String) : SsmDict :=
  ssmFillMissing ids (ssmWaitLoop rounds ids []).1

/-- The (instance, status) observations actually performed during a call to
`wait_for_ssm_ready`. -/
def waitObservations (rounds : List SsmRound) (ids : List String) :
    List (String × String) :=
  (ssmWaitLoop rounds ids []).2

/-! ### Dictionary lemmas -/

lemma dictContains_nil (k : String) : dictContains [] k = false := rfl

lemma dictContains_set (d : SsmDict) (j k : String) (v : Bool) :
    dictContains (dictSet d j v) k = true ↔
      dictContains d k = true ∨ j = k := by
  unfold dictSet
  by_cases h : dictContains d j = true
  · simp only [h, if_true]
    constructor
    · intro hm
      rcases List.any_eq_true.mp hm with ⟨p, hp, hpk⟩
      rcases List.mem_map.mp hp with ⟨p0, hp0, hfe⟩
      by_cases hj : p0.1 == j
      · simp only [hj, if_true] at hfe
        subst hfe
        simp only [beq_iff_eq] at hpk
        exact Or.inr hpk
      · simp only [hj, if_false, Bool.false_eq_true] at hfe
        subst hfe
        exact Or.inl (List.any_eq_true.mpr ⟨p0, hp0, hpk⟩)
    · intro hm
      rcases hm with hm | hm
      · rcases List.any_eq_true.mp hm with ⟨p, hp, hpk⟩
        apply List.any_eq_true.mpr
        by_cases hj : p.1 == j
        · refine ⟨(j, v), List.mem_map.mpr ⟨p, hp, by simp [hj]⟩, ?_⟩
          simp only [beq_iff_eq] at hj hpk ⊢
          rw [← hj, hpk]
        · exact ⟨p, List.mem_map.mpr ⟨p, hp, by simp [hj]⟩, hpk⟩
      · subst hm
        rcases List.any_eq_true.mp h with ⟨p, hp, hpj⟩
        apply List.any_eq_true.mpr
        refine ⟨(j, v), List.mem_map.mpr ⟨p, hp, by simp [hpj]⟩, by simp⟩
  · rw [Bool.not_eq_true] at h
    simp only [h, Bool.false_eq_true, if_false]
    unfold dictContains
    simp only [List.any_append, List.any_cons, List.any_nil, Bool.or_eq_true,
      Bool.or_false, beq_iff_eq]

lemma dictLookup_isSome (d : SsmDict) (k : String) :
    (dictLookup d k).isSome = dictContains d k := by
  induction d with
  | nil => rfl
  | cons p rest ih =>
    unfold dictLookup dictContains
    by_cases h : p.1 == k
    · simp [List.find?, h]
    · unfold dictLookup dictContains at ih
      simp [List.find?, h, ih]

lemma dictLookup_none_of_not_contains (d : SsmDict) (k : String)
    (h : dictContains d k = false) : dictLookup d k = none := by
  have := dictLookup_isSome d k
  rw [h] at this
  exact Option.not_isSome_iff_eq_none.mp (by simp [this])

lemma dictContains_of_lookup_some (d : SsmDict) (k : String) (v : Bool)
    (h : dictLookup d k = some v) : dictContains d k = true := by
  have hs := dictLookup_isSome d k
  rw [h] at hs
  simpa using hs.symm


lemma find?_keyUpdate_other (rest : SsmDict) (j k : String) (v : Bool)
    (hjk : j ≠ k) :
    (List.find? (fun p => p.1 == k)
        (rest.map (fun p => if p.1 == j then (j, v) else p))).map Prod.snd =
      (List.find? (fun p => p.1 == k) rest).map Prod.snd := by
  induction rest with
  | nil => rfl
  | cons p rest ih =>
    rw [List.map_cons, List.find?_cons, List.find?_cons]
    by_cases hpj : (p.1 == j) = true
    · rw [if_pos hpj]
      have hjk' : ((j : String) == k) = false := by simp [hjk]
      have hpk : (p.1 == k) = false := by
        simp only [beq_iff_eq] at hpj
        simp [hpj, hjk]
      simp only [hjk', hpk]
      exact ih
    · rw [Bool.not_eq_true] at hpj
      rw [if_neg (by simp [hpj])]
      by_cases hpk : (p.1 == k) = true
      · simp only [hpk]
      · rw [Bool.not_eq_true] at hpk
        simp only [hpk]
        exact ih

lemma find?_keyUpdate_self (rest : SsmDict) (k : String) (v : Bool)
    (hc : rest.any (fun p => p.1 == k) = true) :
    (List.find? (fun p => p.1 == k)
        (rest.map (fun p => if p.1 == k then (k, v) else p))).map Prod.snd =
      some v := by
  induction rest with
  | nil => simp at hc
  | cons p rest ih =>
    rw [List.map_cons, List.find?_cons]
    by_cases hpk : (p.1 == k) = true
    · rw [if_pos hpk]
      have hkk : ((k : String) == k) = true := by simp
      simp only [hkk]
      rfl
    · rw [Bool.not_eq_true] at hpk
      rw [if_neg (by simp [hpk])]
      simp only [List.any_cons, hpk, Bool.false_or] at hc
      simp only [hpk]
      exact ih hc

lemma dictLookup_set_self (d : SsmDict) (k : String) (v : Bool) :
    dictLookup (dictSet d k v) k = some v := by
  unfold dictSet
  by_cases h : dictContains d k = true
  · simp only [h, if_true]
    unfold dictContains at h
    exact find?_keyUpdate_self d k v h
  · rw [Bool.not_eq_true] at h
    simp only [h, Bool.false_eq_true, if_false]
    unfold dictContains at h
    unfold dictLookup
    induction d with
    | nil =>
      rw [List.nil_append, List.find?_cons]
      have hkk : ((k : String) == k) = true := by simp
      simp only [hkk]
      rfl
    | cons p rest ih =>
      rw [List.any_cons] at h
      have hpk : (p.1 == k) = false := by
        cases hx : p.1 == k
        · rfl
        · rw [hx] at h; simp at h
      have h' : rest.any (fun p => p.1 == k) = false := by
        cases hx : rest.any (fun p => p.1 == k)
        · rfl
        · rw [hpk, hx] at h; simp at h
      rw [List.cons_append, List.find?_cons]
      simp only [hpk]
      exact ih h'

lemma dictLookup_set_other (d : SsmDict) (j k : String) (v : Bool)
    (hjk : j ≠ k) : dictLookup (dictSet d j v) k = dictLookup d k := by
  unfold dictSet
  by_cases h : dictContains d j = true
  · simp only [h, if_true]
    exact find?_keyUpdate_other d j k v hjk
  · rw [Bool.not_eq_true] at h
    simp only [h, Bool.false_eq_true, if_false]
    unfold dictLookup
    induction d with
    | nil =>
      rw [List.nil_append, List.find?_cons]
      have hjk' : ((j : String) == k) = false := by simp [hjk]
      simp only [hjk']
    | cons p rest ih =>
      have h' : dictContains rest j = false := by
        unfold dictContains at h ⊢
        rw [List.any_cons] at h
        cases hr : rest.any (fun p => p.1 == j)
        · rfl
        · rw [hr] at h; simp at h
      rw [List.cons_append, List.find?_cons, List.find?_cons]
      by_cases hpk : (p.1 == k) = true
      · simp only [hpk]
      · rw [Bool.not_eq_true] at hpk
        simp only [hpk]
        exact ih h'

/-- During the polling loop the dict only ever holds `True` values. -/
def dictAllTrue (d : SsmDict) : Prop := ∀ p ∈ d, p.2 = true

lemma dictAllTrue_nil : dictAllTrue [] := by
  intro p hp
  simp at hp

lemma dictAllTrue_set (d : SsmDict) (k : String)
    (h : dictAllTrue d) : dictAllTrue (dictSet d k true) := by
  intro p hp
  unfold dictSet at hp
  by_cases hc : dictContains d k = true
  · simp only [hc, if_true] at hp
    rcases List.mem_map.mp hp with ⟨p0, hp0, hfe⟩
    by_cases hpk : (p0.1 == k) = true
    · simp only [hpk, if_true] at hfe
      rw [← hfe]
    · simp only [hpk, Bool.false_eq_true, if_false] at hfe
      rw [← hfe]
      exact h p0 hp0
  · rw [Bool.not_eq_true] at hc
    simp only [hc, Bool.false_eq_true, if_false] at hp
    rcases List.mem_append.mp hp with hp | hp
    · exact h p hp
    · simp only [List.mem_singleton] at hp
      rw [hp]

lemma dictLookup_true_of_allTrue (d : SsmDict) (k : String)
    (hall : dictAllTrue d) (hc : dictContains d k = true) :
    dictLookup d k = some true := by
  unfold dictContains at hc
  induction d with
  | nil => simp at hc
  | cons p rest ih =>
    unfold dictLookup
    rw [List.find?_cons]
    by_cases hpk : (p.1 == k) = true
    · simp only [hpk]
      simp [hall p (by simp)]
    · rw [Bool.not_eq_true] at hpk
      rw [List.any_cons] at hc
      simp only [hpk, Bool.false_or] at hc
      have hall' : dictAllTrue rest := fun p0 hp0 =>
        hall p0 (List.mem_cons_of_mem _ hp0)
      simp only [hpk]
      exact ih hall' hc

/-! ### Round-step lemmas -/

lemma ssmRoundStep_nil (q : SsmRound) (d : SsmDict) :
    ssmRoundStep q [] d = (d, [], true) := rfl

lemma ssmRoundStep_cons_skip (q : SsmRound) (id : String) (rest : List String)
    (d : SsmDict) (hc : dictContains d id = true) :
    ssmRoundStep q (id :: rest) d = ssmRoundStep q rest d := by
  simp [ssmRoundStep, hc]

lemma ssmRoundStep_cons_online (q : SsmRound) (id : String)
    (rest : List String) (d : SsmDict) (hc : dictContains d id = false)
    (ho : check_ssm_agent_status (q id) = "Online") :
    ssmRoundStep q (id :: rest) d =
      ((ssmRoundStep q rest (dictSet d id true)).1,
       (id, "Online") :: (ssmRoundStep q rest (dictSet d id true)).2.1,
       (ssmRoundStep q rest (dictSet d id true)).2.2) := by
  simp [ssmRoundStep, hc, ho]

lemma ssmRoundStep_cons_off (q : SsmRound) (id : String) (rest : List String)
    (d : SsmDict) (hc : dictContains d id = false)
    (ho : ¬ check_ssm_agent_status (q id) = "Online") :
    ssmRoundStep q (id :: rest) d =
      ((ssmRoundStep q rest d).1,
       (id, check_ssm_agent_status (q id)) :: (ssmRoundStep q rest d).2.1,
       false) := by
  simp [ssmRoundStep, hc, ho]

lemma ssmRoundStep_contains (q : SsmRound) (ids : List String) (d : SsmDict)
    (k : String) :
    dictContains (ssmRoundStep q ids d).1 k = true ↔
      dictContains d k = true ∨
        (k ∈ ids ∧ check_ssm_agent_status (q k) = "Online") := by
  induction ids generalizing d with
  | nil => simp [ssmRoundStep_nil]
  | cons id rest ih =>
    by_cases hc : dictContains d id = true
    · rw [ssmRoundStep_cons_skip q id rest d hc, ih]
      constructor
      · rintro (h | ⟨hm, ho⟩)
        · exact Or.inl h
        · exact Or.inr ⟨List.mem_cons_of_mem _ hm, ho⟩
      · rintro (h | ⟨hm, ho⟩)
        · exact Or.inl h
        · rcases List.mem_cons.mp hm with he | hm'
          · rw [he]; exact Or.inl hc
          · exact Or.inr ⟨hm', ho⟩
    · rw [Bool.not_eq_true] at hc
      by_cases ho : check_ssm_agent_status (q id) = "Online"
      · rw [ssmRoundStep_cons_online q id rest d hc ho]
        rw [show ((ssmRoundStep q rest (dictSet d id true)).1,
              (id, "Online") :: (ssmRoundStep q rest (dictSet d id true)).2.1,
              (ssmRoundStep q rest (dictSet d id true)).2.2).1
            = (ssmRoundStep q rest (dictSet d id true)).1 from rfl]
        rw [ih]
        rw [dictContains_set]
        constructor
        · rintro ((h | he) | ⟨hm, hon⟩)
          · exact Or.inl h
          · rw [← he]
            exact Or.inr ⟨List.mem_cons_self _ _, ho⟩
          · exact Or.inr ⟨List.mem_cons_of_mem _ hm, hon⟩
        · rintro (h | ⟨hm, hon⟩)
          · exact Or.inl (Or.inl h)
          · rcases List.mem_cons.mp hm with he | hm'
            · exact Or.inl (Or.inr he.symm)
            · exact Or.inr ⟨hm', hon⟩
      · rw [ssmRoundStep_cons_off q id rest d hc ho]
        rw [show ((ssmRoundStep q rest d).1,
              (id, check_ssm_agent_status (q id)) :: (ssmRoundStep q rest d).2.1,
              false).1 = (ssmRoundStep q rest d).1 from rfl]
        rw [ih]
        constructor
        · rintro (h | ⟨hm, hon⟩)
          · exact Or.inl h
          · exact Or.inr ⟨List.mem_cons_of_mem _ hm, hon⟩
        · rintro (h | ⟨hm, hon⟩)
          · exact Or.inl h
          · rcases List.mem_cons.mp hm with he | hm'
            · exact absurd (he ▸ hon) ho
            · exact Or.inr ⟨hm', hon⟩

lemma ssmRoundStep_log_online (q : SsmRound) (ids : List String) (d : SsmDict)
    (k : String) :
    (k, "Online") ∈ (ssmRoundStep q ids d).2.1 ↔
      (k ∈ ids ∧ dictContains d k = false
        ∧ check_ssm_agent_status (q k) = "Online") := by
  induction ids generalizing d with
  | nil => simp [ssmRoundStep_nil]
  | cons id rest ih =>
    by_cases hc : dictContains d id = true
    · rw [ssmRoundStep_cons_skip q id rest d hc, ih]
      constructor
      · rintro ⟨hm, hnc, ho⟩
        exact ⟨List.mem_cons_of_mem _ hm, hnc, ho⟩
      · rintro ⟨hm, hnc, ho⟩
        rcases List.mem_cons.mp hm with he | hm'
        · rw [he] at hnc
          rw [hnc] at hc
          cases hc
        · exact ⟨hm', hnc, ho⟩
    · rw [Bool.not_eq_true] at hc
      by_cases ho : check_ssm_agent_status (q id) = "Online"
      · rw [ssmRoundStep_cons_online q id rest d hc ho]
        rw [show ((ssmRoundStep q rest (dictSet d id true)).1,
              (id, "Online") :: (ssmRoundStep q rest (dictSet d id true)).2.1,
              (ssmRoundStep q rest (dictSet d id true)).2.2).2.1
            = (id, "Online") :: (ssmRoundStep q rest (dictSet d id true)).2.1
            from rfl]
        rw [List.mem_cons, ih]
        constructor
        · rintro (he | ⟨hm, hnc, hon⟩)
          · have hk : k = id := congrArg Prod.fst he
            rw [hk]
            exact ⟨List.mem_cons_self _ _, hc, ho⟩
          · refine ⟨List.mem_cons_of_mem _ hm, ?_, hon⟩
            cases hck : dictContains d k
            · rfl
            · exfalso
              have : dictContains (dictSet d id true) k = true :=
                (dictContains_set d id k true).mpr (Or.inl hck)
              rw [this] at hnc
              cases hnc
        · rintro ⟨hm, hnc, hon⟩
          rcases List.mem_cons.mp hm with he | hm'
          · left
            rw [he]
          · by_cases hki : k = id
            · left
              rw [hki]
            · right
              refine ⟨hm', ?_, hon⟩
              cases hck : dictContains (dictSet d id true) k
              · rfl
              · exfalso
                rcases (dictContains_set d id k true).mp hck with hck' | he
                · rw [hck'] at hnc; cases hnc
                · exact hki he.symm
      · rw [ssmRoundStep_cons_off q id rest d hc ho]
        rw [show ((ssmRoundStep q rest d).1,
              (id, check_ssm_agent_status (q id)) :: (ssmRoundStep q rest d).2.1,
              false).2.1
            = (id, check_ssm_agent_status (q id)) :: (ssmRoundStep q rest d).2.1
            from rfl]
        rw [List.mem_cons, ih]
        constructor
        · rintro (he | ⟨hm, hnc, hon⟩)
          · exfalso
            have hs : "Online" = check_ssm_agent_status (q id) :=
              congrArg Prod.snd he
            exact ho hs.symm
          · exact ⟨List.mem_cons_of_mem _ hm, hnc, hon⟩
        · rintro ⟨hm, hnc, hon⟩
          rcases List.mem_cons.mp hm with he | hm'
          · exact absurd (he ▸ hon) ho
          · exact Or.inr ⟨hm', hnc, hon⟩

lemma ssmRoundStep_log_keys (q : SsmRound) (ids : List String) (d : SsmDict)
    (k s : String) (h : (k, s) ∈ (ssmRoundStep q ids d).2.1) : k ∈ ids := by
  induction ids generalizing d with
  | nil =>
    rw [ssmRoundStep_nil] at h
    simp at h
  | cons id rest ih =>
    by_cases hc : dictContains d id = true
    · rw [ssmRoundStep_cons_skip q id rest d hc] at h
      exact List.mem_cons_of_mem _ (ih d h)
    · rw [Bool.not_eq_true] at hc
      by_cases ho : check_ssm_agent_status (q id) = "Online"
      · rw [ssmRoundStep_cons_online q id rest d hc ho] at h
        rcases List.mem_cons.mp h with he | hm
        · have hk : k = id := congrArg Prod.fst he
          rw [hk]
          exact List.mem_cons_self _ _
        · exact List.mem_cons_of_mem _ (ih (dictSet d id true) hm)
      · rw [ssmRoundStep_cons_off q id rest d hc ho] at h
        rcases List.mem_cons.mp h with he | hm
        · have hk : k = id := congrArg Prod.fst he
          rw [hk]
          exact List.mem_cons_self _ _
        · exact List.mem_cons_of_mem _ (ih d hm)

lemma ssmRoundStep_allTrue (q : SsmRound) (ids : List String) (d : SsmDict)
    (h : dictAllTrue d) : dictAllTrue (ssmRoundStep q ids d).1 := by
  induction ids generalizing d with
  | nil => rw [ssmRoundStep_nil]; exact h
  | cons id rest ih =>
    by_cases hc : dictContains d id = true
    · rw [ssmRoundStep_cons_skip q id rest d hc]
      exact ih d h
    · rw [Bool.not_eq_true] at hc
      by_cases ho : check_ssm_agent_status (q id) = "Online"
      · rw [ssmRoundStep_cons_online q id rest d hc ho]
        exact ih (dictSet d id true) (dictAllTrue_set d id h)
      · rw [ssmRoundStep_cons_off q id rest d hc ho]
        exact ih d h

lemma ssmRoundStep_preserve (q : SsmRound) (ids : List String) (d : SsmDict)
    (k : String) (hk : dictContains d k = true) :
    (ssmRoundStep q ids d).2.1.all (fun e => !(e.1 == k)) = true
      ∧ dictLookup (ssmRoundStep q ids d).1 k = dictLookup d k := by
  induction ids generalizing d with
  | nil => exact ⟨rfl, rfl⟩
  | cons id rest ih =>
    by_cases hc : dictContains d id = true
    · rw [ssmRoundStep_cons_skip q id rest d hc]
      exact ih d hk
    · rw [Bool.not_eq_true] at hc
      have hik : ¬ id = k := by
        intro he
        rw [he, hk] at hc
        cases hc
      by_cases ho : check_ssm_agent_status (q id) = "Online"
      · rw [ssmRoundStep_cons_online q id rest d hc ho]
        have hk' : dictContains (dictSet d id true) k = true :=
          (dictContains_set d id k true).mpr (Or.inl hk)
        rcases ih (dictSet d id true) hk' with ⟨ha, hl⟩
        constructor
        · rw [show ((ssmRoundStep q rest (dictSet d id true)).1,
              (id, "Online") :: (ssmRoundStep q rest (dictSet d id true)).2.1,
              (ssmRoundStep q rest (dictSet d id true)).2.2).2.1
              = (id, "Online") :: (ssmRoundStep q rest (dictSet d id true)).2.1
              from rfl]
          rw [List.all_cons, ha]
          simp [hik]
        · rw [show ((ssmRoundStep q rest (dictSet d id true)).1,
              (id, "Online") :: (ssmRoundStep q rest (dictSet d id true)).2.1,
              (ssmRoundStep q rest (dictSet d id true)).2.2).1
              = (ssmRoundStep q rest (dictSet d id true)).1 from rfl]
          rw [hl, dictLookup_set_other d id k true hik]
      · rw [ssmRoundStep_cons_off q id rest d hc ho]
        rcases ih d hk with ⟨ha, hl⟩
        constructor
        · rw [show ((ssmRoundStep q rest d).1,
              (id, check_ssm_agent_status (q id)) :: (ssmRoundStep q rest d).2.1,
              false).2.1
              = (id, check_ssm_agent_status (q id)) :: (ssmRoundStep q rest d).2.1
              from rfl]
          rw [List.all_cons, ha]
          simp [hik]
        · exact hl

/-! ### Wait-loop lemmas -/

lemma ssmWaitLoop_nil (ids : List String) (d : SsmDict) :
    ssmWaitLoop [] ids d = (d, []) := rfl

lemma ssmWaitLoop_cons (q : SsmRound) (rounds : List SsmRound)
    (ids : List String) (d : SsmDict) :
    ssmWaitLoop (q :: rounds) ids d =
      if (ssmRoundStep q ids d).2.2 = true
      then ((ssmRoundStep q ids d).1, (ssmRoundStep q ids d).2.1)
      else ((ssmWaitLoop rounds ids (ssmRoundStep q ids d).1).1,
            (ssmRoundStep q ids d).2.1
              ++ (ssmWaitLoop rounds ids (ssmRoundStep q ids d).1).2) := by
  simp [ssmWaitLoop]

lemma ssmWaitLoop_contains (rounds : List SsmRound) (ids : List String)
    (d : SsmDict) (k : String) :
    dictContains (ssmWaitLoop rounds ids d).1 k = true ↔
      dictContains d k = true ∨ (k, "Online") ∈ (ssmWaitLoop rounds ids d).2 := by
  induction rounds generalizing d with
  | nil => simp [ssmWaitLoop_nil]
  | cons q rounds ih =>
    rw [ssmWaitLoop_cons]
    by_cases hf : (ssmRoundStep q ids d).2.2 = true
    · rw [if_pos hf]
      have h1 := ssmRoundStep_contains q ids d k
      have h2 := ssmRoundStep_log_online q ids d k
      by_cases hck : dictContains d k = true
      · simp only [hck, true_or, iff_true] at h1 ⊢
        exact h1
      · rw [Bool.not_eq_true] at hck
        rw [h1, h2]
        rw [hck]
        constructor
        · rintro (h | ⟨hm, ho⟩)
          · cases h
          · exact Or.inr ⟨hm, rfl, ho⟩
        · rintro (h | ⟨hm, _, ho⟩)
          · cases h
          · exact Or.inr ⟨hm, ho⟩
    · rw [if_neg hf]
      have h1 := ssmRoundStep_contains q ids d k
      have h2 := ssmRoundStep_log_online q ids d k
      have h3 := ih (ssmRoundStep q ids d).1
      rw [show ((ssmWaitLoop rounds ids (ssmRoundStep q ids d).1).1,
            (ssmRoundStep q ids d).2.1
              ++ (ssmWaitLoop rounds ids (ssmRoundStep q ids d).1).2).1
          = (ssmWaitLoop rounds ids (ssmRoundStep q ids d).1).1 from rfl]
      rw [h3, h1]
      rw [show ((ssmWaitLoop rounds ids (ssmRoundStep q ids d).1).1,
            (ssmRoundStep q ids d).2.1
              ++ (ssmWaitLoop rounds ids (ssmRoundStep q ids d).1).2).2
          = (ssmRoundStep q ids d).2.1
              ++ (ssmWaitLoop rounds ids (ssmRoundStep q ids d).1).2 from rfl]
      rw [List.mem_append, h2]
      by_cases hck : dictContains d k = true
      · simp [hck]
      · rw [Bool.not_eq_true] at hck
        rw [hck]
        constructor
        · rintro ((h | ⟨hm, ho⟩) | hw)
          · cases h
          · exact Or.inr (Or.inl ⟨hm, rfl, ho⟩)
          · exact Or.inr (Or.inr hw)
        · rintro (h | (⟨hm, _, ho⟩ | hw))
          · cases h
          · exact Or.inl (Or.inr ⟨hm, ho⟩)
          · exact Or.inr hw

lemma ssmWaitLoop_log_keys (rounds : List SsmRound) (ids : List String)
    (d : SsmDict) (k s : String)
    (h : (k, s) ∈ (ssmWaitLoop rounds ids d).2) : k ∈ ids := by
  induction rounds generalizing d with
  | nil =>
    rw [ssmWaitLoop_nil] at h
    simp at h
  | cons q rounds ih =>
    rw [ssmWaitLoop_cons] at h
    by_cases hf : (ssmRoundStep q ids d).2.2 = true
    · rw [if_pos hf] at h
      exact ssmRoundStep_log_keys q ids d k s h
    · rw [if_neg hf] at h
      rcases List.mem_append.mp h with h | h
      · exact ssmRoundStep_log_keys q ids d k s h
      · exact ih (ssmRoundStep q ids d).1 h

lemma ssmWaitLoop_allTrue (rounds : List SsmRound) (ids : List String)
    (d : SsmDict) (h : dictAllTrue d) :
    dictAllTrue (ssmWaitLoop rounds ids d).1 := by
  induction rounds generalizing d with
  | nil => rw [ssmWaitLoop_nil]; exact h
  | cons q rounds ih =>
    rw [ssmWaitLoop_cons]
    by_cases hf : (ssmRoundStep q ids d).2.2 = true
    · rw [if_pos hf]
      exact ssmRoundStep_allTrue q ids d h
    · rw [if_neg hf]
      exact ih (ssmRoundStep q ids d).1 (ssmRoundStep_allTrue q ids d h)

lemma ssmWaitLoop_preserve (rounds : List SsmRound) (ids : List String)
    (d : SsmDict) (k : String) (hk : dictContains d k = true) :
    (ssmWaitLoop rounds ids d).2.all (fun e => !(e.1 == k)) = true
      ∧ dictLookup (ssmWaitLoop rounds ids d).1 k = dictLookup d k := by
  induction rounds generalizing d with
  | nil => exact ⟨rfl, rfl⟩
  | cons q rounds ih =>
    rw [ssmWaitLoop_cons]
    rcases ssmRoundStep_preserve q ids d k hk with ⟨ha, hl⟩
    by_cases hf : (ssmRoundStep q ids d).2.2 = true
    · rw [if_pos hf]
      exact ⟨ha, hl⟩
    · rw [if_neg hf]
      have hk' : dictContains (ssmRoundStep q ids d).1 k = true :=
        (ssmRoundStep_contains q ids d k).mpr (Or.inl hk)
      rcases ih (ssmRoundStep q ids d).1 hk' with ⟨ha', hl'⟩
      constructor
      · rw [show ((ssmWaitLoop rounds ids (ssmRoundStep q ids d).1).1,
            (ssmRoundStep q ids d).2.1
              ++ (ssmWaitLoop rounds ids (ssmRoundStep q ids d).1).2).2
            = (ssmRoundStep q ids d).2.1
              ++ (ssmWaitLoop rounds ids (ssmRoundStep q ids d).1).2 from rfl]
        rw [List.all_append, ha, ha']
        rfl
      · rw [show ((ssmWaitLoop rounds ids (ssmRoundStep q ids d).1).1,
            (ssmRoundStep q ids d).2.1
              ++ (ssmWaitLoop rounds ids (ssmRoundStep q ids d).1).2).1
            = (ssmWaitLoop rounds ids (ssmRoundStep q ids d).1).1 from rfl]
        rw [hl', hl]

/-! ### Finalisation lemmas -/

lemma ssmFillMissing_contains (ids : List String) (d : SsmDict) (k : String) :
    dictContains (ssmFillMissing ids d) k = true ↔
      dictContains d k = true ∨ k ∈ ids := by
  induction ids generalizing d with
  | nil => simp [ssmFillMissing]
  | cons id rest ih =>
    show dictContains (ssmFillMissing rest
      (if dictContains d id then d else dictSet d id false)) k = true ↔ _
    rw [ih]
    by_cases hc : dictContains d id = true
    · rw [if_pos hc]
      constructor
      · rintro (h | h)
        · exact Or.inl h
        · exact Or.inr (List.mem_cons_of_mem _ h)
      · rintro (h | h)
        · exact Or.inl h
        · rcases List.mem_cons.mp h with he | hm
          · rw [he]; exact Or.inl hc
          · exact Or.inr hm
    · rw [Bool.not_eq_true] at hc
      rw [if_neg (by rw [hc]; exact Bool.false_ne_true)]
      constructor
      · rintro (h | h)
        · rcases (dictContains_set d id k false).mp h with h' | he
          · exact Or.inl h'
          · rw [← he]
            exact Or.inr (List.mem_cons_self _ _)
        · exact Or.inr (List.mem_cons_of_mem _ h)
      · rintro (h | h)
        · exact Or.inl ((dictContains_set d id k false).mpr (Or.inl h))
        · rcases List.mem_cons.mp h with he | hm
          · exact Or.inl ((dictContains_set d id k false).mpr (Or.inr he.symm))
          · exact Or.inr hm

lemma ssmFillMissing_lookup_preserved (ids : List String) (d : SsmDict)
    (k : String) (hk : dictContains d k = true) :
    dictLookup (ssmFillMissing ids d) k = dictLookup d k := by
  induction ids generalizing d with
  | nil => rfl
  | cons id rest ih =>
    show dictLookup (ssmFillMissing rest
      (if dictContains d id then d else dictSet d id false)) k = _
    by_cases hc : dictContains d id = true
    · rw [if_pos hc]
      exact ih d hk
    · rw [Bool.not_eq_true] at hc
      rw [if_neg (by rw [hc]; exact Bool.false_ne_true)]
      have hik : ¬ id = k := by
        intro he
        rw [he, hk] at hc
        cases hc
      have hk' : dictContains (dictSet d id false) k = true :=
        (dictContains_set d id k false).mpr (Or.inl hk)
      rw [ih (dictSet d id false) hk', dictLookup_set_other d id k false hik]

lemma ssmFillMissing_lookup_missing (ids : List String) (d : SsmDict)
    (k : String) (hk : dictContains d k = false) (hm : k ∈ ids) :
    dictLookup (ssmFillMissing ids d) k = some false := by
  induction ids generalizing d with
  | nil => simp at hm
  | cons id rest ih =>
    show dictLookup (ssmFillMissing rest
      (if dictContains d id then d else dictSet d id false)) k = _
    by_cases hki : k = id
    · rw [← hki, if_neg (by rw [hk]; exact Bool.false_ne_true)]
      have h1 : dictLookup (dictSet d k false) k = some false :=
        dictLookup_set_self d k false
      have h2 : dictContains (dictSet d k false) k = true :=
        (dictContains_set d k k false).mpr (Or.inr rfl)
      rw [ssmFillMissing_lookup_preserved rest (dictSet d k false) k h2, h1]
    · have hm' : k ∈ rest := by
        rcases List.mem_cons.mp hm with he | hm'
        · exact absurd he hki
        · exact hm'
      by_cases hc : dictContains d id = true
      · rw [if_pos hc]
        exact ih d hk hm'
      · rw [Bool.not_eq_true] at hc
        rw [if_neg (by rw [hc]; exact Bool.false_ne_true)]
        have hk' : dictContains (dictSet d id false) k = false := by
          cases hx : dictContains (dictSet d id false) k
          · rfl
          · rcases (dictContains_set d id k false).mp hx with h' | he
            · rw [h'] at hk; cases hk
            · exact absurd he.symm hki
        exact ih (dictSet d id false) hk' hm'

/-- Claim C4: `wait_for_ssm_ready` returns a map whose key set is exactly the
set of input identifiers; an identifier maps to `true` exactly when it was
observed with status `Online` in some executed round, and every identifier
never observed `Online` maps to `false`. -/
theorem wait_for_ssm_ready_key_set (rounds : List SsmRound) (ids : List String)
    (k : String) :
    (dictContains (wait_for_ssm_ready rounds ids) k = true ↔ k ∈ ids)
      ∧ (dictLookup (wait_for_ssm_ready rounds ids) k = some true ↔
          (k, "Online") ∈ waitObservations rounds ids)
      ∧ (k ∈ ids → (k, "Online") ∉ waitObservations rounds ids →
          dictLookup (wait_for_ssm_ready rounds ids) k = some false) := by
  have hC : dictContains (ssmWaitLoop rounds ids []).1 k = true ↔
      (k, "Online") ∈ (ssmWaitLoop rounds ids []).2 := by
    have h := ssmWaitLoop_contains rounds ids [] k
    rw [dictContains_nil] at h
    simpa using h
  have hKeys : (k, "Online") ∈ (ssmWaitLoop rounds ids []).2 → k ∈ ids :=
    ssmWaitLoop_log_keys rounds ids [] k "Online"
  have hAll : dictAllTrue (ssmWaitLoop rounds ids []).1 :=
    ssmWaitLoop_allTrue rounds ids [] dictAllTrue_nil
  refine ⟨?_, ?_, ?_⟩
  · rw [wait_for_ssm_ready, ssmFillMissing_contains]
    constructor
    · rintro (h | h)
      · exact hKeys (hC.mp h)
      · exact h
    · exact Or.inr
  · constructor
    · intro h
      by_cases hcl : dictContains (ssmWaitLoop rounds ids []).1 k = true
      · exact hC.mp hcl
      · exfalso
        rw [Bool.not_eq_true] at hcl
        by_cases hm : k ∈ ids
        · have := ssmFillMissing_lookup_missing ids (ssmWaitLoop rounds ids []).1
            k hcl hm
          rw [wait_for_ssm_ready] at h
          rw [this] at h
          cases h
        · have hcw : dictContains (wait_for_ssm_ready rounds ids) k = false := by
            cases hx : dictContains (wait_for_ssm_ready rounds ids) k
            · rfl
            · exfalso
              rw [wait_for_ssm_ready] at hx
              rcases (ssmFillMissing_contains ids _ k).mp hx with h' | h'
              · rw [h'] at hcl; cases hcl
              · exact hm h'
          have := dictLookup_none_of_not_contains _ k hcw
          rw [this] at h
          cases h
    · intro h
      have hcl : dictContains (ssmWaitLoop rounds ids []).1 k = true := hC.mpr h
      rw [wait_for_ssm_ready,
        ssmFillMissing_lookup_preserved ids _ k hcl]
      exact dictLookup_true_of_allTrue _ k hAll hcl
  · intro hm hno
    have hcl : dictContains (ssmWaitLoop rounds ids []).1 k = false := by
      cases hx : dictContains (ssmWaitLoop rounds ids []).1 k
      · rfl
      · exact absurd (hC.mp hx) hno
    rw [wait_for_ssm_ready]
    exact ssmFillMissing_lookup_missing ids _ k hcl hm

/-- Witness for C4 at a concrete input: two instances, one of which is
observed Online in round one while the other's query raises. -/
theorem wait_for_ssm_ready_key_set_witness :
    ("i-2" ∈ ["i-1", "i-2"])
      ∧ dictLookup
          (wait_for_ssm_ready
            [fun j => if j = "i-1" then QueryOutcome.ok ["Online"]
                      else QueryOutcome.exn "network error"]
            ["i-1", "i-2"]) "i-2" = some false :=
  ⟨by decide,
    (wait_for_ssm_ready_key_set
      [fun j => if j = "i-1" then QueryOutcome.ok ["Online"]
                else QueryOutcome.exn "network error"]
      ["i-1", "i-2"] "i-2").2.2 (by decide) (by decide)⟩

/-- Claim C5: once an instance is ready (its dict entry is `True`), the
remaining rounds of the same call never query it again (no observation log
entry mentions it), and the finally returned map still maps it to `true`,
whatever the remaining rounds' query outcomes are. -/
theorem wait_for_ssm_ready_monotonic (rounds : List SsmRound)
    (ids : List String) (d : SsmDict) (k : String)
    (h : dictLookup d k = some true) :
    (ssmWaitLoop rounds ids d).2.all (fun e => !(e.1 == k)) = true
      ∧ dictLookup (ssmFillMissing ids (ssmWaitLoop rounds ids d).1) k
          = some true := by
  have hk : dictContains d k = true := dictContains_of_lookup_some d k true h
  rcases ssmWaitLoop_preserve rounds ids d k hk with ⟨ha, hl⟩
  refine ⟨ha, ?_⟩
  have hsome : dictLookup (ssmWaitLoop rounds ids d).1 k = some true := by
    rw [hl, h]
  have hk' : dictContains (ssmWaitLoop rounds ids d).1 k = true :=
    dictContains_of_lookup_some _ k true hsome
  rw [ssmFillMissing_lookup_preserved ids _ k hk', hsome]

/-- Witness for C5: instance `i-1` is already ready; a later round whose
queries all raise neither re-queries it nor flips its final value. -/
theorem wait_for_ssm_ready_monotonic_witness :
    ((ssmWaitLoop [fun _ => QueryOutcome.exn "boom"] ["i-1", "i-2"]
        [("i-1", true)]).2.all (fun e => !(e.1 == "i-1")) = true)
      ∧ dictLookup
          (ssmFillMissing ["i-1", "i-2"]
            (ssmWaitLoop [fun _ => QueryOutcome.exn "boom"] ["i-1", "i-2"]
              [("i-1", true)]).1) "i-1" = some true :=
  wait_for_ssm_ready_monotonic [fun _ => QueryOutcome.exn "boom"]
    ["i-1", "i-2"] [("i-1", true)] "i-1" (by decide)

/-! ### Failure-swallowing lemmas (claim C7) -/

lemma ssmRoundStep_queries_all (q : SsmRound) (ids : List String)
    (j : String) :
    ∀ (d : SsmDict), j ∈ ids → dictContains d j = false →
      (ssmRoundStep q ids d).2.1.any (fun e => e.1 == j) = true := by
  induction ids with
  | nil => intro d hm hc; simp at hm
  | cons i rest ih =>
    intro d hm hc
    by_cases hci : dictContains d i = true
    · rw [ssmRoundStep_cons_skip q i rest d hci]
      rcases List.mem_cons.mp hm with he | hm'
      · rw [he] at hc
        rw [hc] at hci
        cases hci
      · exact ih d hm' hc
    · rw [Bool.not_eq_true] at hci
      by_cases ho : check_ssm_agent_status (q i) = "Online"
      · rw [ssmRoundStep_cons_online q i rest d hci ho]
        by_cases hji : j = i
        · rw [show ((ssmRoundStep q rest (dictSet d i true)).1,
              (i, "Online") :: (ssmRoundStep q rest (dictSet d i true)).2.1,
              (ssmRoundStep q rest (dictSet d i true)).2.2).2.1
              = (i, "Online") :: (ssmRoundStep q rest (dictSet d i true)).2.1
              from rfl]
          rw [List.any_cons]
          simp [hji]
        · have hm' : j ∈ rest := by
            rcases List.mem_cons.mp hm with he | hm'
            · exact absurd he hji
            · exact hm'
          have hc' : dictContains (dictSet d i true) j = false := by
            cases hx : dictContains (dictSet d i true) j
            · rfl
            · rcases (dictContains_set d i j true).mp hx with h' | he
              · rw [h'] at hc; cases hc
              · exact absurd he.symm hji
          rw [show ((ssmRoundStep q rest (dictSet d i true)).1,
              (i, "Online") :: (ssmRoundStep q rest (dictSet d i true)).2.1,
              (ssmRoundStep q rest (dictSet d i true)).2.2).2.1
              = (i, "Online") :: (ssmRoundStep q rest (dictSet d i true)).2.1
              from rfl]
          rw [List.any_cons, ih (dictSet d i true) hm' hc']
          simp
      · rw [ssmRoundStep_cons_off q i rest d hci ho]
        rw [show ((ssmRoundStep q rest d).1,
            (i, check_ssm_agent_status (q i)) :: (ssmRoundStep q rest d).2.1,
            false).2.1
            = (i, check_ssm_agent_status (q i)) :: (ssmRoundStep q rest d).2.1
            from rfl]
        by_cases hji : j = i
        · rw [List.any_cons]
          simp [hji]
        · have hm' : j ∈ rest := by
            rcases List.mem_cons.mp hm with he | hm'
            · exact absurd he hji
            · exact hm'
          rw [List.any_cons, ih d hm' hc]
          simp

lemma ssmRoundStep_congr (q q' : SsmRound) (ids : List String) (d : SsmDict)
    (id : String) (hagree : ∀ j, ¬ j = id → q j = q' j)
    (h1 : ¬ check_ssm_agent_status (q id) = "Online")
    (h2 : ¬ check_ssm_agent_status (q' id) = "Online") :
    (ssmRoundStep q ids d).1 = (ssmRoundStep q' ids d).1
      ∧ (ssmRoundStep q ids d).2.2 = (ssmRoundStep q' ids d).2.2 := by
  induction ids generalizing d with
  | nil => exact ⟨rfl, rfl⟩
  | cons j rest ih =>
    by_cases hc : dictContains d j = true
    · rw [ssmRoundStep_cons_skip q j rest d hc,
        ssmRoundStep_cons_skip q' j rest d hc]
      exact ih d
    · rw [Bool.not_eq_true] at hc
      by_cases hj : j = id
      · rw [hj] at hc ⊢
        rw [ssmRoundStep_cons_off q id rest d hc h1,
          ssmRoundStep_cons_off q' id rest d hc h2]
        exact ⟨(ih d).1, rfl⟩
      · have hq : q j = q' j := hagree j hj
        by_cases ho : check_ssm_agent_status (q j) = "Online"
        · have ho' : check_ssm_agent_status (q' j) = "Online" := by
            rw [← hq]; exact ho
          rw [ssmRoundStep_cons_online q j rest d hc ho,
            ssmRoundStep_cons_online q' j rest d hc ho']
          exact ⟨(ih (dictSet d j true)).1, (ih (dictSet d j true)).2⟩
        · have ho' : ¬ check_ssm_agent_status (q' j) = "Online" := by
            rw [← hq]; exact ho
          rw [ssmRoundStep_cons_off q j rest d hc ho,
            ssmRoundStep_cons_off q' j rest d hc ho']
          exact ⟨(ih d).1, rfl⟩

lemma ssmWaitLoop_congr (pre post : List SsmRound) (q q' : SsmRound)
    (ids : List String) (d : SsmDict) (id : String)
    (hagree : ∀ j, ¬ j = id → q j = q' j)
    (h1 : ¬ check_ssm_agent_status (q id) = "Online")
    (h2 : ¬ check_ssm_agent_status (q' id) = "Online") :
    (ssmWaitLoop (pre ++ q :: post) ids d).1
      = (ssmWaitLoop (pre ++ q' :: post) ids d).1 := by
  induction pre generalizing d with
  | nil =>
    rw [List.nil_append, List.nil_append, ssmWaitLoop_cons, ssmWaitLoop_cons]
    rcases ssmRoundStep_congr q q' ids d id hagree h1 h2 with ⟨hd, hf⟩
    rw [← hf]
    by_cases hfl : (ssmRoundStep q ids d).2.2 = true
    · rw [if_pos hfl, if_pos hfl]
      exact hd
    · rw [if_neg hfl, if_neg hfl]
      rw [show ((ssmWaitLoop post ids (ssmRoundStep q ids d).1).1,
          (ssmRoundStep q ids d).2.1
            ++ (ssmWaitLoop post ids (ssmRoundStep q ids d).1).2).1
          = (ssmWaitLoop post ids (ssmRoundStep q ids d).1).1 from rfl]
      rw [show ((ssmWaitLoop post ids (ssmRoundStep q' ids d).1).1,
          (ssmRoundStep q' ids d).2.1
            ++ (ssmWaitLoop post ids (ssmRoundStep q' ids d).1).2).1
          = (ssmWaitLoop post ids (ssmRoundStep q' ids d).1).1 from rfl]
      rw [hd]
  | cons p pre ih =>
    rw [List.cons_append, List.cons_append, ssmWaitLoop_cons, ssmWaitLoop_cons]
    by_cases hfl : (ssmRoundStep p ids d).2.2 = true
    · rw [if_pos hfl, if_pos hfl]
    · rw [if_neg hfl, if_neg hfl]
      rw [show ((ssmWaitLoop (pre ++ q :: post) ids (ssmRoundStep p ids d).1).1,
          (ssmRoundStep p ids d).2.1
            ++ (ssmWaitLoop (pre ++ q :: post) ids (ssmRoundStep p ids d).1).2).1
          = (ssmWaitLoop (pre ++ q :: post) ids (ssmRoundStep p ids d).1).1
          from rfl]
      rw [show ((ssmWaitLoop (pre ++ q' :: post) ids (ssmRoundStep p ids d).1).1,
          (ssmRoundStep p ids d).2.1
            ++ (ssmWaitLoop (pre ++ q' :: post) ids (ssmRoundStep p ids d).1).2).1
          = (ssmWaitLoop (pre ++ q' :: post) ids (ssmRoundStep p ids d).1).1
          from rfl]
      exact ih (ssmRoundStep p ids d).1

/-- Claim C7: a raised status query is swallowed.  (1) Any exception from
`describe_instance_information` is mapped to the non-Online status
`"Unknown"`; (2) within a round, every not-yet-ready instance is still
queried, whatever the other instances' outcomes; (3) replacing one
instance's query outcome in one round by any other outcome that also derives
a non-`"Online"` status leaves the returned map of the whole wait unchanged
-- an exception behaves exactly like a "not yet ready" status for that round
only, and the wait is never aborted. -/
theorem ssm_wait_swallows_query_failures (pre post : List SsmRound)
    (q q' : SsmRound) (ids : List String) (id m : String)
    (hagree : ∀ j, ¬ j = id → q j = q' j)
    (h1 : ¬ check_ssm_agent_status (q id) = "Online")
    (h2 : ¬ check_ssm_agent_status (q' id) = "Online") :
    check_ssm_agent_status (QueryOutcome.exn m) = "Unknown"
      ∧ (∀ j ∈ ids, ∀ d : SsmDict, dictContains d j = false →
          (ssmRoundStep q ids d).2.1.any (fun e => e.1 == j) = true)
      ∧ wait_for_ssm_ready (pre ++ q :: post) ids
          = wait_for_ssm_ready (pre ++ q' :: post) ids := by
  refine ⟨rfl, ?_, ?_⟩
  · intro j hj d hd
    exact ssmRoundStep_queries_all q ids j d hj hd
  · rw [wait_for_ssm_ready, wait_for_ssm_ready,
      ssmWaitLoop_congr pre post q q' ids [] id hagree h1 h2]

/-- Witness for C7: a round in which `i-1`'s query raises produces the same
returned map as one in which `i-1` reports `ConnectionLost`, and `i-2` is
still queried in that round. -/
theorem ssm_wait_swallows_query_failures_witness :
    check_ssm_agent_status (QueryOutcome.exn "boom") = "Unknown"
      ∧ (ssmRoundStep
          (fun j => if j = "i-1" then QueryOutcome.exn "boom"
                    else QueryOutcome.ok ["Online"])
          ["i-1", "i-2"] []).2.1.any (fun e => e.1 == "i-2") = true
      ∧ wait_for_ssm_ready
          [fun j => if j = "i-1" then QueryOutcome.exn "boom"
                    else QueryOutcome.ok ["Online"]] ["i-1", "i-2"]
        = wait_for_ssm_ready
          [fun j => if j = "i-1" then QueryOutcome.ok ["ConnectionLost"]
                    else QueryOutcome.ok ["Online"]] ["i-1", "i-2"] := by
  have h := ssm_wait_swallows_query_failures [] []
    (fun j => if j = "i-1" then QueryOutcome.exn "boom"
              else QueryOutcome.ok ["Online"])
    (fun j => if j = "i-1" then QueryOutcome.ok ["ConnectionLost"]
              else QueryOutcome.ok ["Online"])
    ["i-1", "i-2"] "i-1" "boom"
    (fun j hj => by simp [hj])
    (by decide) (by decide)
  exact ⟨h.1, h.2.1 "i-2" (by decide) [] (by decide), h.2.2⟩

/-! ## Remote credential dispatch (`set_windows_password_via_ssm`) -/

/-- The outcome of one `get_command_invocation` call: either the invocation
is not yet registered (the `InvocationDoesNotExist` exception), or a result
with a status string and captured stdout/stderr. -/
inductive PollResponse where
  | invocationDoesNotExist
  | result (status stdout stderr : String)
deriving DecidableEq, Repr

/-- The observable actions of `set_windows_password_via_ssm`: the single
`send_command` dispatch (carrying the password it sets), the fixed
`time.sleep(2)` pauses, and the `get_command_invocation` polls. -/
inductive SsmEvent where
  | send (pw : String)
  | sleep (seconds : Nat)
  | poll
deriving DecidableEq, Repr

/-- The Python return value, refined by what the function prints: `Success`
returns the applied password, a terminal `Failed`/`Cancelled`/`TimedOut`
returns `None` after surfacing the captured output, and exhausting all
attempts returns `None` after a timeout warning. -/
inductive SsmSetResult where
  | applied (pw : String)
  | failedRes (status stdout stderr : String)
  | timedOut
deriving DecidableEq, Repr

/-- The terminal failure statuses checked by
`elif status in ['Failed', 'Cancelled', 'TimedOut']`. -/
def isTerminalFailure (s : String) : Bool :=
  s == "Failed" || s == "Cancelled" || s == "TimedOut"

/-- Python truthiness of an optional string argument (`if not password:`):
`None` and the empty string are falsy. -/
def pyTruthy : Option String → Bool
  | none => false
  | some s => !(s == "")

/-- The poll loop of `set_windows_password_via_ssm` (ll-win-client-aws.py
lines 990-1030): each attempt sleeps 2 seconds, then polls; `Success`
returns the password; `Failed`/`Cancelled`/`TimedOut` returns `None` with
the captured output; `InvocationDoesNotExist` and every non-terminal status
(`Pending`, `InProgress`, `Delayed`, or anything else) continue; after
`max_attempts = 30` attempts the function returns `None` (timeout).
`i` is the current attempt index, `fuel` the remaining attempts. -/
def ssmPollLoop (responses : Nat → PollResponse) (pw : String) :
    Nat → Nat → List SsmEvent × SsmSetResult
  | _, 0 => ([], .timedOut)
  | i, fuel + 1 =>
    match responses i with
    | .invocationDoesNotExist =>
      let r := ssmPollLoop responses pw (i + 1) fuel
      (.sleep 2 :: .poll :: r.1, r.2)
    | .result s out err =>
      if s = "Success" then ([.sleep 2, .poll], .applied pw)
      else if isTerminalFailure s then ([.sleep 2, .poll], .failedRes s out err)
      else
        let r := ssmPollLoop responses pw (i + 1) fuel
        (.sleep 2 :: .poll :: r.1, r.2)

/-- Embedding of `set_windows_password_via_ssm` (ll-win-client-aws.py lines
942-1036, identical in ll-win-client.py lines 1124-1218): if the `password`
argument is `None` or empty, a fresh password is generated
(`generate_secure_password`), whose outcome is the explicit parameter
`gen`; then exactly one command is dispatched and the invocation is polled
up to 30 times at a 2-second interval. -/
def set_windows_password_via_ssm (password : Option String) (gen : String)
    (responses : Nat → PollResponse) : List SsmEvent × SsmSetResult :=
  let pw := if pyTruthy password then password.getD "" else gen
  let r := ssmPollLoop responses pw 0 30
  (.send pw :: r.1, r.2)

/-- Recogniser for dispatch events. -/
def isSendEvent : SsmEvent → Bool
  | .send _ => true
  | _ => false

/-- Recogniser for poll events. -/
def isPollEvent : SsmEvent → Bool
  | .poll => true
  | _ => false

/-- Every sleep event pauses for exactly two seconds. -/
def isSleepTwo : SsmEvent → Bool
  | .sleep n => n == 2
  | .send _ => true
  | .poll => true

/-- Modelled from the spec: the first terminal status (either `Success` or a
terminal failure) among the responses to attempts `i, i+1, ...` within
`fuel` further attempts, skipping not-yet-registered invocations and
non-terminal statuses. -/
def firstTerminalStatus (responses : Nat → PollResponse) :
    Nat → Nat → Option (String × String × String)
  | _, 0 => none
  | i, fuel + 1 =>
    match responses i with
    | .invocationDoesNotExist => firstTerminalStatus responses (i + 1) fuel
    | .result s out err =>
      if s = "Success" ∨ isTerminalFailure s = true then some (s, out, err)
      else firstTerminalStatus responses (i + 1) fuel

lemma ssmPollLoop_events (responses : Nat → PollResponse) (pw : String)
    (i fuel : Nat) :
    ((ssmPollLoop responses pw i fuel).1.filter isSendEvent).length = 0
      ∧ ((ssmPollLoop responses pw i fuel).1.filter isPollEvent).length ≤ fuel
      ∧ (ssmPollLoop responses pw i fuel).1.all isSleepTwo = true := by
  induction fuel generalizing i with
  | zero => exact ⟨rfl, Nat.le_refl 0, rfl⟩
  | succ fuel ih =>
    rcases ih (i + 1) with ⟨hs, hp, ht⟩
    rcases hr : responses i with _ | ⟨s, out, err⟩
    · simp only [ssmPollLoop, hr]
      refine ⟨?_, ?_, ?_⟩
      · simpa [List.filter_cons, isSendEvent] using hs
      · simp only [List.filter_cons, isPollEvent]
        simp only [if_true, Bool.false_eq_true, if_false, List.length_cons]
        omega
      · simp [List.all_cons, isSleepTwo, ht]
    · by_cases hsu : s = "Success"
      · simp [ssmPollLoop, hr, hsu, List.filter_cons, isSendEvent, isPollEvent,
          isSleepTwo]
      · by_cases htf : isTerminalFailure s = true
        · simp [ssmPollLoop, hr, hsu, htf, List.filter_cons, isSendEvent,
            isPollEvent, isSleepTwo]
        · simp only [ssmPollLoop, hr, hsu, if_false, htf]
          refine ⟨?_, ?_, ?_⟩
          · simpa [List.filter_cons, isSendEvent] using hs
          · simp [List.filter_cons, isPollEvent]
            omega
          · simp [List.all_cons, isSleepTwo, ht]

lemma ssmPollLoop_result (responses : Nat → PollResponse) (pw : String)
    (i fuel : Nat) :
    (ssmPollLoop responses pw i fuel).2 =
      match firstTerminalStatus responses i fuel with
      | none => .timedOut
      | some (s, out, err) =>
        if s = "Success" then .applied pw else .failedRes s out err := by
  induction fuel generalizing i with
  | zero => rfl
  | succ fuel ih =>
    rcases hr : responses i with _ | ⟨s, out, err⟩
    · simp only [ssmPollLoop, firstTerminalStatus, hr]
      exact ih (i + 1)
    · by_cases hsu : s = "Success"
      · rw [hsu] at hr
        simp [ssmPollLoop, firstTerminalStatus, hr]
      · by_cases htf : isTerminalFailure s = true
        · simp [ssmPollLoop, firstTerminalStatus, hr, hsu, htf]
        · simp only [ssmPollLoop, firstTerminalStatus, hr, hsu, htf, if_false,
            or_self, false_or]
          exact ih (i + 1)

lemma ssmPollLoop_applied (responses : Nat → PollResponse) (pw : String)
    (i fuel : Nat) (s : String)
    (h : (ssmPollLoop responses pw i fuel).2 = .applied s) : s = pw := by
  rw [ssmPollLoop_result] at h
  rcases hf : firstTerminalStatus responses i fuel with _ | ⟨st, out, err⟩
  · rw [hf] at h
    cases h
  · rw [hf] at h
    by_cases hsu : st = "Success"
    · simp only [hsu, if_true] at h
      injection h with h'
      exact h'.symm
    · simp only [hsu, if_false] at h
      cases h

/-- Claim C6: `set_windows_password_via_ssm` dispatches exactly one remote
command, then polls at a 2-second interval for at most 30 attempts; the
result is fully determined by the first terminal status among the polled
responses: `Success` returns the applied credential, a
`Failed`/`Cancelled`/`TimedOut` status returns the error result with the
captured output, and if no terminal status is reached within 30 attempts the
timeout result is returned.  Not-yet-registered invocations
(`InvocationDoesNotExist`) and non-terminal statuses are skipped by
`firstTerminalStatus`, i.e. polling continues. -/
theorem set_windows_password_via_ssm_polling (password : Option String)
    (gen : String) (responses : Nat → PollResponse) :
    ((set_windows_password_via_ssm password gen responses).1.filter
        isSendEvent).length = 1
      ∧ ((set_windows_password_via_ssm password gen responses).1.filter
          isPollEvent).length ≤ 30
      ∧ (set_windows_password_via_ssm password gen responses).1.all
          isSleepTwo = true
      ∧ (set_windows_password_via_ssm password gen responses).2 =
          match firstTerminalStatus responses 0 30 with
          | none => .timedOut
          | some (s, out, err) =>
            if s = "Success"
            then .applied (if pyTruthy password then password.getD "" else gen)
            else .failedRes s out err := by
  rcases ssmPollLoop_events responses
    (if pyTruthy password then password.getD "" else gen) 0 30 with ⟨hs, hp, ht⟩
  refine ⟨?_, ?_, ?_, ?_⟩
  · simp only [set_windows_password_via_ssm, List.filter_cons, isSendEvent,
      if_true, List.length_cons]
    omega
  · simp only [set_windows_password_via_ssm, List.filter_cons, isSendEvent,
      isPollEvent]
    simp only [Bool.false_eq_true, if_false]
    exact Nat.le_trans hp (by omega)
  · simp only [set_windows_password_via_ssm, List.all_cons, isSleepTwo, ht]
    rfl
  · simp only [set_windows_password_via_ssm]
    exact ssmPollLoop_result responses _ 0 30

/-- Claim C10: when the `password` argument is `None` or empty
(`if not password:`), the function generates its own fresh password and, on
success, returns that generated value; when a non-empty password is passed,
that password is the one dispatched and returned.  Hence the shared-password
invariant of a batch relies on the caller passing the same non-empty
password to every dispatch. -/
theorem set_windows_password_via_ssm_default_generates (password : Option String)
    (gen : String) (responses : Nat → PollResponse) :
    (pyTruthy password = false →
      ((set_windows_password_via_ssm password gen responses).1.head?
          = some (.send gen)
        ∧ ∀ s, (set_windows_password_via_ssm password gen responses).2
            = .applied s → s = gen))
      ∧ (∀ p : String, password = some p → ¬ p = "" →
          ((set_windows_password_via_ssm password gen responses).1.head?
              = some (.send p)
            ∧ ∀ s, (set_windows_password_via_ssm password gen responses).2
                = .applied s → s = p)) := by
  constructor
  · intro hfalse
    constructor
    · simp [set_windows_password_via_ssm, hfalse]
    · intro s h
      simp only [set_windows_password_via_ssm, hfalse, Bool.false_eq_true,
        if_false] at h
      exact ssmPollLoop_applied responses gen 0 30 s h
    
  · intro p hp hne
    have htrue : pyTruthy password = true := by
      rw [hp]
      simp [pyTruthy, hne]
    have hgd : password.getD "" = p := by rw [hp]; rfl
    constructor
    · simp [set_windows_password_via_ssm, htrue, hgd]
    · intro s h
      simp only [set_windows_password_via_ssm, htrue, if_true, hgd] at h
      exact ssmPollLoop_applied responses p 0 30 s h

/-- Witness for C10: a call with no password argument and a successful
dispatch returns the internally generated password. -/
theorem set_windows_password_via_ssm_default_generates_witness :
    (set_windows_password_via_ssm none "G3n!pass"
        (fun _ => PollResponse.result "Success" "ok" "")).1.head?
      = some (SsmEvent.send "G3n!pass") :=
  ((set_windows_password_via_ssm_default_generates none "G3n!pass"
    (fun _ => PollResponse.result "Success" "ok" "")).1 rfl).1

/-! ## Batch orchestration after the readiness wait
(`deploy_infrastructure` lines 1284-1375, `regenerate_connection_files`
lines 1607-1703 of ll-win-client-aws.py) -/

/-- The per-instance outcome of a batch, derived from the event trace:
`applied` if the instance's dispatch succeeded, `failed` if it was dispatched
and the remote execution did not succeed, `skipped` if it was never
dispatched. -/
inductive InstStatus where
  | applied
  | failed
  | skipped
deriving DecidableEq, Repr

/-- The variable content of the credential record file (`PASSWORDS.txt`):
the shared password and, per listed instance, its identifier, the IP printed
next to it, and whether the password was applied (`✓ Password set` versus
`✗ Not set`). -/
structure CredRecord where
  password : String
  entries : List (String × String × Bool)
deriving DecidableEq, Repr

/-- The observable actions of the orchestration after the readiness wait:
generating the shared password, dispatching one credential-setting command
per ready instance (with its success bit), writing the credential record
file, and regenerating one connection descriptor. -/
inductive DeployEvent where
  | genPassword (pw : String)
  | dispatch (id : String) (ok : Bool)
  | writeRecord (path : String) (content : CredRecord)
  | writeDcv (ip name : String) (user pw : Option String)
deriving DecidableEq, Repr

/-- The fixed path of the credential record
(`Path.home() / "Desktop" / "LucidLink-DCV" / "PASSWORDS.txt"`). -/
def passwordsFilePath : String := "~/Desktop/LucidLink-DCV/PASSWORDS.txt"

/-- The sequential dispatch loop (`for idx, inst_id in enumerate(...)`):
ready instances are dispatched in order, not-ready instances are only
reported as skipped (no event). -/
def dispatchEvents (ready disp : String → Bool) : List String → List DeployEvent
  | [] => []
  | id :: rest =>
    if ready id then .dispatch id (disp id) :: dispatchEvents ready disp rest
    else dispatchEvents ready disp rest

/-- The descriptor regeneration loop
(`for idx, (instance_id, public_ip) in enumerate(zip(instance_ids,
public_ips))`): every pair gets a descriptor named `ll-win-client-{idx+1}`
with the shared password embedded and no username. -/
def dcvWriteEvents (pw : String) : Nat → List (String × String) → List DeployEvent
  | _, [] => []
  | idx, (_, ip) :: rest =>
    .writeDcv ip ("ll-win-client-" ++ toString (idx + 1)) none (some pw)
      :: dcvWriteEvents pw (idx + 1) rest

/-- The record entries written by `deploy_infrastructure` (lines 1337-1340):
`enumerate(instance_ids, 1)` with `public_ips[idx-1]` defaulting to
`"N/A"`, and the applied mark `inst_id in passwords`. -/
def recordEntriesPad (ips : List String) (applied : List String) :
    Nat → List String → List (String × String × Bool)
  | _, [] => []
  | i, id :: rest =>
    (id, ips.getD i "N/A", applied.contains id)
      :: recordEntriesPad ips applied (i + 1) rest

/-- The record entries written by `regenerate_connection_files` (lines
1690-1692): `enumerate(zip(instance_ids, public_ips), 1)`. -/
def recordEntriesZip (applied : List String) :
    List String → List String → List (String × String × Bool)
  | [], _ => []
  | _ :: _, [] => []
  | id :: ids, ip :: ips =>
    (id, ip, applied.contains id) :: recordEntriesZip applied ids ips

/-- Embedding of the credential phase of `deploy_infrastructure`
(ll-win-client-aws.py lines 1284-1375), given the readiness map (`ready`),
the per-instance dispatch outcomes (`disp`), and the generated shared
password (`pw`): if no instance is ready the function returns after a
warning (no events); otherwise it generates one password, dispatches
sequentially over all instances (ready ones only), and, only if at least one
password was set, writes `PASSWORDS.txt` once and regenerates all
descriptors with the shared password embedded. -/
def deployAfterWait (ids ips : List String) (ready disp : String → Bool)
    (pw : String) : List DeployEvent :=
  if (ids.filter ready).isEmpty then []
  else
    .genPassword pw :: dispatchEvents ready disp ids
      ++ (if (ids.filter (fun i => ready i && disp i)).isEmpty then []
          else .writeRecord passwordsFilePath
              ⟨pw, recordEntriesPad ips
                (ids.filter (fun i => ready i && disp i)) 0 ids⟩
            :: dcvWriteEvents pw 0 (ids.zip ips))

/-- Embedding of `regenerate_connection_files` (ll-win-client-aws.py lines
1607-1703) after the readiness wait: early return if no instance is ready;
otherwise generate one password, dispatch sequentially, regenerate every
descriptor with the shared password embedded (Step 2, unconditional), and
write `PASSWORDS.txt` (Step 3) only if at least one password was set. -/
def regenAfterWait (ids ips : List String) (ready disp : String → Bool)
    (pw : String) : List DeployEvent :=
  if (ids.filter ready).isEmpty then []
  else
    .genPassword pw :: dispatchEvents ready disp ids
      ++ dcvWriteEvents pw 0 (ids.zip ips)
      ++ (if (ids.filter (fun i => ready i && disp i)).isEmpty then []
          else [.writeRecord passwordsFilePath
              ⟨pw, recordEntriesZip
                (ids.filter (fun i => ready i && disp i)) ids ips⟩])

/-- Derived per-instance status of a batch trace. -/
def instanceStatus (events : List DeployEvent) (id : String) : InstStatus :=
  if events.contains (.dispatch id true) then .applied
  else if events.contains (.dispatch id false) then .failed
  else .skipped

/-- Recogniser for credential-record writes. -/
def isRecordWrite : DeployEvent → Bool
  | .writeRecord _ _ => true
  | _ => false

/-- Recogniser for dispatch events. -/
def isDispatchEvent : DeployEvent → Bool
  | .dispatch _ _ => true
  | _ => false

/-- Recogniser for password-generation events. -/
def isGenPassword : DeployEvent → Bool
  | .genPassword _ => true
  | _ => false

lemma filter_eq_nil_of_forall_false {p : String → Bool} :
    ∀ l : List String, (∀ x ∈ l, p x = false) → l.filter p = [] := by
  intro l h
  induction l with
  | nil => rfl
  | cons x rest ih =>
    rw [List.filter_cons]
    rw [h x (List.mem_cons_self _ _)]
    exact ih (fun y hy => h y (List.mem_cons_of_mem _ hy))

/-- Claim C8: when zero instances become ready, both orchestrations return
early: the event trace is empty (no password generation, no dispatch, no
record write, no descriptor write) and every requested instance's derived
status is `skipped`. -/
theorem deploy_zero_ready_all_skipped (ids ips : List String)
    (ready disp : String → Bool) (pw : String)
    (h : ∀ id ∈ ids, ready id = false) :
    deployAfterWait ids ips ready disp pw = []
      ∧ regenAfterWait ids ips ready disp pw = []
      ∧ (∀ id ∈ ids,
          instanceStatus (deployAfterWait ids ips ready disp pw) id
            = .skipped) := by
  have hf : ids.filter ready = [] := filter_eq_nil_of_forall_false ids h
  have hd : deployAfterWait ids ips ready disp pw = [] := by
    rw [deployAfterWait, hf]
    rfl
  have hr : regenAfterWait ids ips ready disp pw = [] := by
    rw [regenAfterWait, hf]
    rfl
  refine ⟨hd, hr, ?_⟩
  intro id _
  rw [hd]
  rfl

/-- Witness for C8: a single never-ready instance produces an empty trace
and a `skipped` status. -/
theorem deploy_zero_ready_all_skipped_witness :
    deployAfterWait ["i-a"] ["1.2.3.4"] (fun _ => false) (fun _ => true)
        "Pw1!aB2c" = []
      ∧ regenAfterWait ["i-a"] ["1.2.3.4"] (fun _ => false) (fun _ => true)
          "Pw1!aB2c" = []
      ∧ instanceStatus
          (deployAfterWait ["i-a"] ["1.2.3.4"] (fun _ => false)
            (fun _ => true) "Pw1!aB2c") "i-a" = .skipped := by
  have h := deploy_zero_ready_all_skipped ["i-a"] ["1.2.3.4"]
    (fun _ => false) (fun _ => true) "Pw1!aB2c" (by decide)
  exact ⟨h.1, h.2.1, h.2.2 "i-a" (by decide)⟩

/-! ### A plain overwriting file store -/

/-- Writing a file: `open(path, 'w')` replaces the content at `path`,
leaving other entries unchanged (the store keeps first-write order, like a
directory listing). -/
def storeWrite {κ α : Type} [BEq κ] (fs : List (κ × α)) (p : κ) (c : α) :
    List (κ × α) :=
  if fs.any (fun q => q.1 == p) then
    fs.map (fun q => if q.1 == p then (p, c) else q)
  else fs ++ [(p, c)]

/-- Reading a file of the store. -/
def storeLookup {κ α : Type} [BEq κ] (fs : List (κ × α)) (p : κ) : Option α :=
  (fs.find? (fun q => q.1 == p)).map Prod.snd

lemma store_find_keyUpdate_self {κ α : Type} [BEq κ] [LawfulBEq κ]
    (rest : List (κ × α)) (p : κ) (c : α)
    (hc : rest.any (fun q => q.1 == p) = true) :
    ((rest.map (fun q => if q.1 == p then (p, c) else q)).find?
      (fun q => q.1 == p)).map Prod.snd = some c := by
  induction rest with
  | nil => simp at hc
  | cons q rest ih =>
    rw [List.map_cons, List.find?_cons]
    by_cases hq : (q.1 == p) = true
    · rw [if_pos hq]
      have hpp : (p == p) = true := by simp
      simp only [hpp]
      rfl
    · rw [Bool.not_eq_true] at hq
      rw [if_neg (by rw [hq]; exact Bool.false_ne_true)]
      simp only [List.any_cons, hq, Bool.false_or] at hc
      simp only [hq]
      exact ih hc

lemma storeLookup_write_self {κ α : Type} [BEq κ] [LawfulBEq κ]
    (fs : List (κ × α)) (p : κ) (c : α) :
    storeLookup (storeWrite fs p c) p = some c := by
  unfold storeWrite
  by_cases h : fs.any (fun q => q.1 == p) = true
  · rw [if_pos h]
    exact store_find_keyUpdate_self fs p c h
  · rw [Bool.not_eq_true] at h
    rw [if_neg (by rw [h]; exact Bool.false_ne_true)]
    unfold storeLookup
    induction fs with
    | nil =>
      rw [List.nil_append, List.find?_cons]
      have hpp : (p == p) = true := by simp
      simp only [hpp]
      rfl
    | cons q rest ih =>
      rw [List.any_cons] at h
      have hq : (q.1 == p) = false := by
        cases hx : q.1 == p
        · rfl
        · rw [hx] at h; simp at h
      have h' : rest.any (fun q => q.1 == p) = false := by
        cases hx : rest.any (fun q => q.1 == p)
        · rfl
        · rw [hq, hx] at h; simp at h
      rw [List.cons_append, List.find?_cons]
      simp only [hq]
      exact ih h'

/-- Cumulative effect of the record writes of a trace on the store. -/
def applyRecordWrites :
    List (String × CredRecord) → List DeployEvent → List (String × CredRecord)
  | fs, [] => fs
  | fs, DeployEvent.writeRecord p c :: rest =>
    applyRecordWrites (storeWrite fs p c) rest
  | fs, _ :: rest => applyRecordWrites fs rest

lemma filter_eq_nil_of_all_false {α : Type} (p : α → Bool) :
    ∀ l : List α, (∀ x ∈ l, p x = false) → l.filter p = [] := by
  intro l h
  induction l with
  | nil => rfl
  | cons x rest ih =>
    rw [List.filter_cons, h x (List.mem_cons_self _ _)]
    exact ih (fun y hy => h y (List.mem_cons_of_mem _ hy))

lemma forall_false_of_filter_eq_nil {α : Type} (p : α → Bool) :
    ∀ l : List α, l.filter p = [] → ∀ x ∈ l, p x = false := by
  intro l
  induction l with
  | nil =>
    intro _ x hx
    simp at hx
  | cons y rest ih =>
    intro h x hx
    rw [List.filter_cons] at h
    cases hy : p y
    · rw [hy] at h
      simp only [Bool.false_eq_true, if_false] at h
      rcases List.mem_cons.mp hx with he | hm
      · rw [he, hy]
      · exact ih h x hm
    · rw [hy] at h
      simp at h

lemma isEmpty_true_iff {α : Type} (l : List α) : l.isEmpty = true ↔ l = [] := by
  cases l <;> simp [List.isEmpty]

lemma mem_dispatchEvents (ready disp : String → Bool) :
    ∀ (l : List String) (e : DeployEvent), e ∈ dispatchEvents ready disp l →
      isDispatchEvent e = true := by
  intro l
  induction l with
  | nil =>
    intro e he
    simp [dispatchEvents] at he
  | cons id rest ih =>
    intro e he
    rw [dispatchEvents] at he
    by_cases hr : ready id = true
    · rw [if_pos hr] at he
      rcases List.mem_cons.mp he with he' | hm
      · rw [he']
        rfl
      · exact ih e hm
    · rw [if_neg hr] at he
      exact ih e he

lemma mem_dcvWriteEvents (pw : String) :
    ∀ (i : Nat) (l : List (String × String)) (e : DeployEvent),
      e ∈ dcvWriteEvents pw i l →
      ∃ ip nm, e = DeployEvent.writeDcv ip nm none (some pw) := by
  intro i l
  induction l generalizing i with
  | nil =>
    intro e he
    simp [dcvWriteEvents] at he
  | cons pr rest ih =>
    intro e he
    rcases pr with ⟨id0, ip0⟩
    rw [dcvWriteEvents] at he
    rcases List.mem_cons.mp he with he' | hm
    · exact ⟨ip0, "ll-win-client-" ++ toString (i + 1), he'⟩
    · exact ih (i + 1) e hm

lemma dispatch_not_record (e : DeployEvent) (h : isDispatchEvent e = true) :
    isRecordWrite e = false := by
  cases e <;> simp [isDispatchEvent, isRecordWrite] at h ⊢

lemma filter_record_dispatchEvents (ready disp : String → Bool)
    (l : List String) :
    (dispatchEvents ready disp l).filter isRecordWrite = [] :=
  filter_eq_nil_of_all_false _ _
    (fun e he => dispatch_not_record e (mem_dispatchEvents ready disp l e he))

lemma filter_record_dcvWriteEvents (pw : String) (i : Nat)
    (l : List (String × String)) :
    (dcvWriteEvents pw i l).filter isRecordWrite = [] := by
  apply filter_eq_nil_of_all_false
  intro e he
  rcases mem_dcvWriteEvents pw i l e he with ⟨ip, nm, he'⟩
  rw [he']
  rfl

lemma applied_empty_of_ready_empty (ids : List String)
    (ready disp : String → Bool) (h : ids.filter ready = []) :
    ids.filter (fun i => ready i && disp i) = [] := by
  apply filter_eq_nil_of_all_false
  intro x hx
  rw [forall_false_of_filter_eq_nil ready ids h x hx]
  rfl

lemma no_dispatch_after_record_of_split (Y : List DeployEvent)
    (hY : ∀ e ∈ Y, isDispatchEvent e = false) :
    ∀ (X : List DeployEvent), (∀ e ∈ X, isRecordWrite e = false) →
      ∀ (l₁ : List DeployEvent) (e : DeployEvent) (l₂ : List DeployEvent),
        X ++ Y = l₁ ++ e :: l₂ → isRecordWrite e = true →
        ∀ x ∈ l₂, isDispatchEvent x = false := by
  intro X
  induction X with
  | nil =>
    intro _ l₁ e l₂ hsplit _ x hx
    apply hY
    rw [List.nil_append] at hsplit
    rw [hsplit]
    exact List.mem_append_right _ (List.mem_cons_of_mem _ hx)
  | cons a X ih =>
    intro hX l₁ e l₂ hsplit hrec x hx
    cases l₁ with
    | nil =>
      rw [List.cons_append, List.nil_append] at hsplit
      injection hsplit with h1 h2
      rw [← h1] at hrec
      rw [hX a (List.mem_cons_self _ _)] at hrec
      cases hrec
    | cons b l₁ =>
      rw [List.cons_append, List.cons_append] at hsplit
      injection hsplit with h1 h2
      exact ih (fun e he => hX e (List.mem_cons_of_mem _ he)) l₁ e l₂ h2 hrec
        x hx

lemma applyRecordWrites_no_records (fs : List (String × CredRecord)) :
    ∀ evs : List DeployEvent, (∀ e ∈ evs, isRecordWrite e = false) →
      applyRecordWrites fs evs = fs := by
  intro evs
  induction evs generalizing fs with
  | nil => intro _; rfl
  | cons e rest ih =>
    intro h
    have he : isRecordWrite e = false := h e (List.mem_cons_self _ _)
    have hrest : ∀ x ∈ rest, isRecordWrite x = false :=
      fun x hx => h x (List.mem_cons_of_mem _ hx)
    cases e with
    | genPassword pw => exact ih fs hrest
    | dispatch id ok => exact ih fs hrest
    | writeRecord p c => simp [isRecordWrite] at he
    | writeDcv ip nm u pw => exact ih fs hrest

lemma applyRecordWrites_append (fs : List (String × CredRecord)) :
    ∀ (a b : List DeployEvent),
      applyRecordWrites fs (a ++ b)
        = applyRecordWrites (applyRecordWrites fs a) b := by
  intro a
  induction a generalizing fs with
  | nil => intro b; rfl
  | cons e rest ih =>
    intro b
    cases e with
    | genPassword pw => exact ih fs b
    | dispatch id ok => exact ih fs b
    | writeRecord p c => exact ih (storeWrite fs p c) b
    | writeDcv ip nm u pw => exact ih fs b

lemma recordEntriesPad_keys (ips applied : List String) :
    ∀ (i : Nat) (l : List String),
      (recordEntriesPad ips applied i l).map (fun e => e.1) = l := by
  intro i l
  induction l generalizing i with
  | nil => rfl
  | cons id rest ih =>
    rw [recordEntriesPad, List.map_cons]
    rw [ih (i + 1)]

lemma deployAfterWait_ready_nonempty (ids ips : List String)
    (ready disp : String → Bool) (pw : String)
    (hr : ¬ (ids.filter ready).isEmpty = true) :
    deployAfterWait ids ips ready disp pw =
      (DeployEvent.genPassword pw :: dispatchEvents ready disp ids)
        ++ (if (ids.filter (fun i => ready i && disp i)).isEmpty then []
            else DeployEvent.writeRecord passwordsFilePath
                ⟨pw, recordEntriesPad ips
                  (ids.filter (fun i => ready i && disp i)) 0 ids⟩
              :: dcvWriteEvents pw 0 (ids.zip ips)) := by
  rw [deployAfterWait, if_neg hr, List.cons_append]

lemma deploy_filter_record_length (ids ips : List String)
    (ready disp : String → Bool) (pw : String) :
    ((deployAfterWait ids ips ready disp pw).filter isRecordWrite).length
      = if (ids.filter (fun i => ready i && disp i)).isEmpty then 0 else 1 := by
  by_cases hr : (ids.filter ready).isEmpty = true
  · rw [deployAfterWait, if_pos hr]
    have ha := applied_empty_of_ready_empty ids ready disp
      ((isEmpty_true_iff _).mp hr)
    rw [ha]
    rfl
  · rw [deployAfterWait_ready_nonempty ids ips ready disp pw hr]
    rw [List.filter_append, List.filter_cons]
    rw [show isRecordWrite (DeployEvent.genPassword pw) = false from rfl]
    simp only [Bool.false_eq_true, if_false]
    rw [filter_record_dispatchEvents, List.nil_append]
    by_cases happ : (ids.filter (fun i => ready i && disp i)).isEmpty = true
    · rw [if_pos happ, if_pos happ]
      rfl
    · rw [if_neg happ, if_neg happ]
      rw [List.filter_cons]
      rw [show isRecordWrite (DeployEvent.writeRecord passwordsFilePath
          ⟨pw, recordEntriesPad ips (ids.filter (fun i => ready i && disp i))
            0 ids⟩) = true from rfl]
      simp only [if_true]
      rw [filter_record_dcvWriteEvents]
      rfl

lemma regenAfterWait_ready_nonempty (ids ips : List String)
    (ready disp : String → Bool) (pw : String)
    (hr : ¬ (ids.filter ready).isEmpty = true) :
    regenAfterWait ids ips ready disp pw =
      (DeployEvent.genPassword pw :: dispatchEvents ready disp ids
          ++ dcvWriteEvents pw 0 (ids.zip ips))
        ++ (if (ids.filter (fun i => ready i && disp i)).isEmpty then []
            else [DeployEvent.writeRecord passwordsFilePath
                ⟨pw, recordEntriesZip
                  (ids.filter (fun i => ready i && disp i)) ids ips⟩]) := by
  rw [regenAfterWait, if_neg hr, List.cons_append]

lemma regen_filter_record_length (ids ips : List String)
    (ready disp : String → Bool) (pw : String) :
    ((regenAfterWait ids ips ready disp pw).filter isRecordWrite).length
      = if (ids.filter (fun i => ready i && disp i)).isEmpty then 0 else 1 := by
  by_cases hr : (ids.filter ready).isEmpty = true
  · rw [regenAfterWait, if_pos hr]
    have ha := applied_empty_of_ready_empty ids ready disp
      ((isEmpty_true_iff _).mp hr)
    rw [ha]
    rfl
  · rw [regenAfterWait_ready_nonempty ids ips ready disp pw hr]
    simp only [List.filter_append, List.filter_cons]
    rw [show isRecordWrite (DeployEvent.genPassword pw) = false from rfl]
    simp only [Bool.false_eq_true, if_false]
    rw [filter_record_dispatchEvents, filter_record_dcvWriteEvents,
      List.nil_append, List.nil_append]
    by_cases happ : (ids.filter (fun i => ready i && disp i)).isEmpty = true
    · rw [if_pos happ, if_pos happ]
      rfl
    · rw [if_neg happ, if_neg happ]
      rfl

lemma deploy_no_dispatch_after_record (ids ips : List String)
    (ready disp : String → Bool) (pw : String)
    (l₁ : List DeployEvent) (e : DeployEvent) (l₂ : List DeployEvent)
    (hsplit : deployAfterWait ids ips ready disp pw = l₁ ++ e :: l₂)
    (hrec : isRecordWrite e = true) :
    ∀ x ∈ l₂, isDispatchEvent x = false := by
  by_cases hr : (ids.filter ready).isEmpty = true
  · rw [deployAfterWait, if_pos hr] at hsplit
    exact absurd hsplit.symm (List.append_ne_nil_of_right_ne_nil l₁
      (List.cons_ne_nil e l₂))
  · rw [deployAfterWait_ready_nonempty ids ips ready disp pw hr] at hsplit
    apply no_dispatch_after_record_of_split _ ?hY _ ?hX l₁ e l₂ hsplit hrec
    case hX =>
      intro x hx
      rcases List.mem_cons.mp hx with he | hm
      · rw [he]; rfl
      · exact dispatch_not_record x (mem_dispatchEvents ready disp ids x hm)
    case hY =>
      intro x hx
      by_cases happ : (ids.filter (fun i => ready i && disp i)).isEmpty = true
      · rw [if_pos happ] at hx
        simp at hx
      · rw [if_neg happ] at hx
        rcases List.mem_cons.mp hx with he | hm
        · rw [he]; rfl
        · rcases mem_dcvWriteEvents pw 0 (ids.zip ips) x hm with ⟨ip, nm, he'⟩
          rw [he']; rfl

lemma regen_no_dispatch_after_record (ids ips : List String)
    (ready disp : String → Bool) (pw : String)
    (l₁ : List DeployEvent) (e : DeployEvent) (l₂ : List DeployEvent)
    (hsplit : regenAfterWait ids ips ready disp pw = l₁ ++ e :: l₂)
    (hrec : isRecordWrite e = true) :
    ∀ x ∈ l₂, isDispatchEvent x = false := by
  by_cases hr : (ids.filter ready).isEmpty = true
  · rw [regenAfterWait, if_pos hr] at hsplit
    exact absurd hsplit.symm (List.append_ne_nil_of_right_ne_nil l₁
      (List.cons_ne_nil e l₂))
  · rw [regenAfterWait_ready_nonempty ids ips ready disp pw hr] at hsplit
    apply no_dispatch_after_record_of_split _ ?hY _ ?hX l₁ e l₂ hsplit hrec
    case hX =>
      intro x hx
      rcases List.mem_cons.mp hx with he | hm
      · rw [he]; rfl
      · rcases List.mem_append.mp hm with hm' | hm'
        · exact dispatch_not_record x (mem_dispatchEvents ready disp ids x hm')
        · rcases mem_dcvWriteEvents pw 0 (ids.zip ips) x hm' with ⟨ip, nm, he'⟩
          rw [he']; rfl
    case hY =>
      intro x hx
      by_cases happ : (ids.filter (fun i => ready i && disp i)).isEmpty = true
      · rw [if_pos happ] at hx
        simp at hx
      · rw [if_neg happ] at hx
        rcases List.mem_cons.mp hx with he | hm
        · rw [he]; rfl
        · simp at hm

lemma deploy_record_content (ids ips : List String)
    (ready disp : String → Bool) (pw : String) (p : String) (c : CredRecord)
    (hm : DeployEvent.writeRecord p c ∈ deployAfterWait ids ips ready disp pw) :
    p = passwordsFilePath ∧ c.password = pw
      ∧ c.entries.map (fun e => e.1) = ids := by
  by_cases hr : (ids.filter ready).isEmpty = true
  · rw [deployAfterWait, if_pos hr] at hm
    simp at hm
  · rw [deployAfterWait_ready_nonempty ids ips ready disp pw hr] at hm
    rcases List.mem_append.mp hm with hm' | hm'
    · rcases List.mem_cons.mp hm' with he | hm''
      · cases he
      · have := dispatch_not_record _ (mem_dispatchEvents ready disp ids _ hm'')
        simp [isRecordWrite] at this
    · by_cases happ : (ids.filter (fun i => ready i && disp i)).isEmpty = true
      · rw [if_pos happ] at hm'
        simp at hm'
      · rw [if_neg happ] at hm'
        rcases List.mem_cons.mp hm' with he | hm''
        · injection he with h1 h2
          refine ⟨h1, ?_, ?_⟩
          · rw [h2]
          · rw [h2]
            exact recordEntriesPad_keys ips _ 0 ids
        · rcases mem_dcvWriteEvents pw 0 (ids.zip ips) _ hm'' with ⟨ip, nm, he'⟩
          cases he'

lemma deploy_record_overwrites (ids ips : List String)
    (ready disp : String → Bool) (pw : String)
    (fs : List (String × CredRecord))
    (happ : (ids.filter (fun i => ready i && disp i)).isEmpty = false) :
    storeLookup (applyRecordWrites fs (deployAfterWait ids ips ready disp pw))
        passwordsFilePath
      = some ⟨pw, recordEntriesPad ips
          (ids.filter (fun i => ready i && disp i)) 0 ids⟩ := by
  have hr : ¬ (ids.filter ready).isEmpty = true := by
    intro hr
    have := applied_empty_of_ready_empty ids ready disp
      ((isEmpty_true_iff _).mp hr)
    rw [this] at happ
    cases happ
  rw [deployAfterWait_ready_nonempty ids ips ready disp pw hr]
  rw [if_neg (by rw [happ]; exact Bool.false_ne_true)]
  rw [applyRecordWrites_append]
  rw [applyRecordWrites_no_records fs _ ?hpre]
  case hpre =>
    intro x hx
    rcases List.mem_cons.mp hx with he | hm
    · rw [he]; rfl
    · exact dispatch_not_record x (mem_dispatchEvents ready disp ids x hm)
  rw [show applyRecordWrites fs (DeployEvent.writeRecord passwordsFilePath
      ⟨pw, recordEntriesPad ips (ids.filter (fun i => ready i && disp i)) 0 ids⟩
      :: dcvWriteEvents pw 0 (ids.zip ips))
    = applyRecordWrites (storeWrite fs passwordsFilePath
        ⟨pw, recordEntriesPad ips (ids.filter (fun i => ready i && disp i)) 0 ids⟩)
        (dcvWriteEvents pw 0 (ids.zip ips)) from rfl]
  rw [applyRecordWrites_no_records _ _ ?hdcv]
  case hdcv =>
    intro x hx
    rcases mem_dcvWriteEvents pw 0 (ids.zip ips) x hx with ⟨ip, nm, he'⟩
    rw [he']; rfl
  exact storeLookup_write_self fs passwordsFilePath _

/-- Counterexample for C3: a batch with one ready instance whose dispatch
fails writes no credential record at all (the code writes the record only
when `passwords` is nonempty, i.e. at least one dispatch succeeded), so "at
least one instance ready implies exactly one record written" is false.  The
third conjunct exhibits the full trace of a successful one-instance batch:
the record holds the credential and per-instance statuses and nothing else
(in particular no generation time). -/
theorem credential_record_not_written_when_all_dispatches_fail :
    (["i-a"].filter (fun _ => true) = ["i-a"]
      ∧ ((deployAfterWait ["i-a"] ["1.2.3.4"] (fun _ => true) (fun _ => false)
          "Pw1!aB2c").filter isRecordWrite).length = 0
      ∧ deployAfterWait ["i-a"] ["1.2.3.4"] (fun _ => true) (fun _ => true)
          "Pw1!aB2c"
        = [DeployEvent.genPassword "Pw1!aB2c",
           DeployEvent.dispatch "i-a" true,
           DeployEvent.writeRecord passwordsFilePath
             ⟨"Pw1!aB2c", [("i-a", "1.2.3.4", true)]⟩,
           DeployEvent.writeDcv "1.2.3.4" "ll-win-client-1" none
             (some "Pw1!aB2c")]) := by
  decide

/-- Claim C3 (amended): the credential record is written exactly once when
at least one dispatch succeeded and zero times otherwise; every record write
comes after the whole dispatch loop (no dispatch event follows it, in both
orchestrations); the record is written at the fixed well-known path,
overwriting whatever was there, and contains the shared credential and one
entry per requested instance. -/
theorem deploy_record_write_once (ids ips : List String)
    (ready disp : String → Bool) (pw : String)
    (fs : List (String × CredRecord)) :
    (((deployAfterWait ids ips ready disp pw).filter isRecordWrite).length
        = if (ids.filter (fun i => ready i && disp i)).isEmpty then 0 else 1)
      ∧ (((regenAfterWait ids ips ready disp pw).filter isRecordWrite).length
          = if (ids.filter (fun i => ready i && disp i)).isEmpty then 0 else 1)
      ∧ (∀ (l₁ : List DeployEvent) (e : DeployEvent) (l₂ : List DeployEvent),
          deployAfterWait ids ips ready disp pw = l₁ ++ e :: l₂ →
          isRecordWrite e = true → ∀ x ∈ l₂, isDispatchEvent x = false)
      ∧ (∀ (l₁ : List DeployEvent) (e : DeployEvent) (l₂ : List DeployEvent),
          regenAfterWait ids ips ready disp pw = l₁ ++ e :: l₂ →
          isRecordWrite e = true → ∀ x ∈ l₂, isDispatchEvent x = false)
      ∧ (∀ (p : String) (c : CredRecord),
          DeployEvent.writeRecord p c ∈ deployAfterWait ids ips ready disp pw →
          p = passwordsFilePath ∧ c.password = pw
            ∧ c.entries.map (fun e => e.1) = ids)
      ∧ ((ids.filter (fun i => ready i && disp i)).isEmpty = false →
          storeLookup
            (applyRecordWrites fs (deployAfterWait ids ips ready disp pw))
            passwordsFilePath
          = some ⟨pw, recordEntriesPad ips
              (ids.filter (fun i => ready i && disp i)) 0 ids⟩) :=
  ⟨deploy_filter_record_length ids ips ready disp pw,
   regen_filter_record_length ids ips ready disp pw,
   fun l₁ e l₂ hs hr =>
     deploy_no_dispatch_after_record ids ips ready disp pw l₁ e l₂ hs hr,
   fun l₁ e l₂ hs hr =>
     regen_no_dispatch_after_record ids ips ready disp pw l₁ e l₂ hs hr,
   fun p c hm => deploy_record_content ids ips ready disp pw p c hm,
   fun happ => deploy_record_overwrites ids ips ready disp pw fs happ⟩

/-- Witness for C3 (amended), at a one-instance batch with a successful
dispatch: the record store afterwards holds exactly the one record. -/
theorem deploy_record_write_once_witness :
    storeLookup
        (applyRecordWrites []
          (deployAfterWait ["i-a"] ["1.2.3.4"] (fun _ => true) (fun _ => true)
            "Pw1!aB2c")) passwordsFilePath
      = some ⟨"Pw1!aB2c", [("i-a", "1.2.3.4", true)]⟩ :=
  (deploy_record_write_once ["i-a"] ["1.2.3.4"] (fun _ => true)
    (fun _ => true) "Pw1!aB2c" []).2.2.2.2.2 (by decide)

/-- A descriptor write for the given IP that embeds the given password. -/
def dcvWriteWithPw (ip pw : String) : DeployEvent → Bool
  | .writeDcv ipf _ _ pwf => ipf == ip && pwf == some pw
  | _ => false

lemma dcvWriteEvents_covers (pw id ip : String) :
    ∀ (i : Nat) (pairs : List (String × String)), (id, ip) ∈ pairs →
      (dcvWriteEvents pw i pairs).any (dcvWriteWithPw ip pw) = true := by
  intro i pairs
  induction pairs generalizing i with
  | nil =>
    intro h
    simp at h
  | cons pr rest ih =>
    intro h
    rcases pr with ⟨id0, ip0⟩
    rw [dcvWriteEvents, List.any_cons]
    rcases List.mem_cons.mp h with he | hm
    · have h2 : ip = ip0 := congrArg Prod.snd he
      simp [dcvWriteWithPw, h2]
    · rw [ih (i + 1) hm]
      simp

/-- Counterexample for C2: in a two-instance batch where `i-a`'s dispatch
succeeds and `i-b`'s remote execution fails, the regeneration step still
writes `i-b`'s connection descriptor with the shared password embedded, so
"the descriptor for a failed instance contains no embedded password" is
false on the code. -/
theorem failed_instance_descriptor_embeds_password :
    (instanceStatus
        (regenAfterWait ["i-a", "i-b"] ["1.1.1.1", "2.2.2.2"] (fun _ => true)
          (fun i => i == "i-a") "Pw1!aB2c") "i-b" = InstStatus.failed
      ∧ DeployEvent.writeDcv "2.2.2.2" "ll-win-client-2" none (some "Pw1!aB2c")
          ∈ regenAfterWait ["i-a", "i-b"] ["1.1.1.1", "2.2.2.2"]
            (fun _ => true) (fun i => i == "i-a") "Pw1!aB2c"
      ∧ instanceStatus
          (regenAfterWait ["i-a", "i-b"] ["1.1.1.1", "2.2.2.2"] (fun _ => true)
            (fun i => i == "i-a") "Pw1!aB2c") "i-a" = InstStatus.applied) := by
  decide

/-- Claim C2 (amended): the regenerated descriptors embed the shared
credential for every instance whose IP is known, regardless of the
per-instance dispatch result — unconditionally in
`regenerate_connection_files` (whenever the batch proceeds at all), and in
`deploy_infrastructure` whenever at least one dispatch succeeded.  In
particular an Applied instance's descriptor does embed the shared
credential, but so does a Failed or Skipped instance's. -/
theorem regen_embeds_shared_password_for_all (ids ips : List String)
    (ready disp : String → Bool) (pw : String) (id ip : String)
    (hmem : (id, ip) ∈ ids.zip ips) :
    ((ids.filter ready).isEmpty = false →
        (regenAfterWait ids ips ready disp pw).any (dcvWriteWithPw ip pw)
          = true)
      ∧ ((ids.filter (fun i => ready i && disp i)).isEmpty = false →
        (deployAfterWait ids ips ready disp pw).any (dcvWriteWithPw ip pw)
          = true) := by
  have hd := dcvWriteEvents_covers pw id ip 0 (ids.zip ips) hmem
  constructor
  · intro hr
    rw [regenAfterWait_ready_nonempty ids ips ready disp pw
      (by rw [hr]; exact Bool.false_ne_true)]
    simp [List.any_append, List.any_cons, hd]
  · intro happ
    have hr : ¬ (ids.filter ready).isEmpty = true := by
      intro hr
      have := applied_empty_of_ready_empty ids ready disp
        ((isEmpty_true_iff _).mp hr)
      rw [this] at happ
      cases happ
    rw [deployAfterWait_ready_nonempty ids ips ready disp pw hr]
    rw [if_neg (by rw [happ]; exact Bool.false_ne_true)]
    simp [List.any_append, List.any_cons, hd]

/-- Witness for C2 (amended): the failed instance `i-b`'s descriptor write
with the shared password embedded is present in the concrete trace. -/
theorem regen_embeds_shared_password_for_all_witness :
    (regenAfterWait ["i-a", "i-b"] ["1.1.1.1", "2.2.2.2"] (fun _ => true)
        (fun i => i == "i-a") "Pw1!aB2c").any
        (dcvWriteWithPw "2.2.2.2" "Pw1!aB2c") = true :=
  (regen_embeds_shared_password_for_all ["i-a", "i-b"] ["1.1.1.1", "2.2.2.2"]
    (fun _ => true) (fun i => i == "i-a") "Pw1!aB2c" "i-b" "2.2.2.2"
    (by decide)).1 (by decide)

/-! ## Connection descriptor writer (`generate_dcv_file`,
ll-win-client-aws.py lines 1049-1093) -/

/-- Python truthiness of the optional string arguments of
`generate_dcv_file` (`if username:` / `if password:`): `None` and the empty
string are falsy. -/
def pyTruthyChars : Option (List Char) → Bool
  | none => false
  | some s => !s.isEmpty

/-- The descriptor directory
(`Path.home() / "Desktop" / "LucidLink-DCV"`). -/
def dcvDirPath : List Char := "~/Desktop/LucidLink-DCV".toList

/-- The descriptor path for a display name
(`desktop_dir / f"{instance_name}.dcv"`). -/
def dcvFilePathOf (name : List Char) : List Char :=
  dcvDirPath ++ '/' :: (name ++ ".dcv".toList)

/-- The lines of the written descriptor, mirroring the `dcv_content`
f-string of the source: fixed `[version]`/`[connect]` sections with the host
set to the given IP, a `user=` line only when the username argument is
truthy, a `password=` line only when the password argument is truthy, then
the fixed `[options]` section. -/
def dcvContentLines (ip : List Char) (user pw : Option (List Char)) :
    List (List Char) :=
  ["[version]".toList, "format=1.0".toList, [], "[connect]".toList,
      "host=".toList ++ ip, "port=8443".toList, "sessionid=console".toList]
    ++ (if pyTruthyChars user then ["user=".toList ++ user.getD []] else [])
    ++ (if pyTruthyChars pw then ["password=".toList ++ pw.getD []] else [])
    ++ [[], "[options]".toList, "fullscreen=false".toList,
      "preferred-video-codec=h264".toList]

/-- What one call to `generate_dcv_file` does to the filesystem: a
`mkdir(parents=True, exist_ok=True)` of the descriptor directory and one
overwriting file write. -/
structure DcvGen where
  mkdirPath : List Char
  filePath : List Char
  content : List (List Char)
deriving DecidableEq, Repr

/-- Embedding of `generate_dcv_file`: the directory created, the path
written, and the content written there, as functions of the call's
arguments only (mode `'w'`: nothing of any earlier file at the same path
survives). -/
def generate_dcv_file (instance_ip instance_name : List Char)
    (username password : Option (List Char)) : DcvGen :=
  ⟨dcvDirPath, dcvFilePathOf instance_name,
   dcvContentLines instance_ip username password⟩

/-- A filesystem fragment: the set of existing directories and the files. -/
structure DcvFs where
  dirs : List (List Char)
  files : List (List Char × List (List Char))

/-- Applying one `generate_dcv_file` call to the filesystem: the directory
is created if absent (idempotent), then the file is written. -/
def applyDcvGen (fs : DcvFs) (g : DcvGen) : DcvFs :=
  ⟨if g.mkdirPath ∈ fs.dirs then fs.dirs else fs.dirs ++ [g.mkdirPath],
   storeWrite fs.files g.filePath g.content⟩

/-- Key-prefix test: does the line start with the given INI key?  Used for
`user=` and `password=` lines. -/
def hasKey : List Char → List Char → Bool
  | [], _ => true
  | _ :: _, [] => false
  | k :: ks, c :: cs => k == c && hasKey ks cs

/-- Claim C9: `generate_dcv_file` always creates the parent directory if
absent (and the directory it creates is the parent of the written path); a
second write for the same display name completely replaces the prior file
(the surviving content is exactly the content generated from the new
arguments, whose host line carries the new IP and which retains nothing of
the old file); and a `user=` (resp. `password=`) line is present in the
written content exactly when the corresponding argument is truthy
(non-`None` and non-empty). -/
theorem generate_dcv_file_spec (fs : DcvFs) (ip ip' name : List Char)
    (user user' pw pw' : Option (List Char)) :
    (generate_dcv_file ip name user pw).mkdirPath = dcvDirPath
      ∧ (generate_dcv_file ip name user pw).filePath = dcvFilePathOf name
      ∧ dcvDirPath ∈ (applyDcvGen fs (generate_dcv_file ip name user pw)).dirs
      ∧ storeLookup
          (applyDcvGen (applyDcvGen fs (generate_dcv_file ip name user pw))
            (generate_dcv_file ip' name user' pw')).files
          (dcvFilePathOf name)
        = some (dcvContentLines ip' user' pw')
      ∧ ("host=".toList ++ ip') ∈ dcvContentLines ip' user' pw'
      ∧ ((dcvContentLines ip user pw).any (hasKey "user=".toList)
          = pyTruthyChars user)
      ∧ ((dcvContentLines ip user pw).any (hasKey "password=".toList)
          = pyTruthyChars pw) := by
  refine ⟨rfl, rfl, ?_, ?_, ?_, ?_, ?_⟩
  · rw [show (applyDcvGen fs (generate_dcv_file ip name user pw)).dirs
        = if dcvDirPath ∈ fs.dirs then fs.dirs else fs.dirs ++ [dcvDirPath]
      from rfl]
    by_cases hm : dcvDirPath ∈ fs.dirs
    · rw [if_pos hm]
      exact hm
    · rw [if_neg hm]
      exact List.mem_append_right _ (List.mem_singleton.mpr rfl)
  · exact storeLookup_write_self
      (storeWrite fs.files (dcvFilePathOf name) (dcvContentLines ip user pw))
      (dcvFilePathOf name) (dcvContentLines ip' user' pw')
  · apply List.mem_append_left
    apply List.mem_append_left
    apply List.mem_append_left
    simp
  · rcases user with _ | (_ | ⟨uc, ucs⟩) <;>
      rcases pw with _ | (_ | ⟨pc, pcs⟩) <;> rfl
  · rcases user with _ | (_ | ⟨uc, ucs⟩) <;>
      rcases pw with _ | (_ | ⟨pc, pcs⟩) <;> rfl
